import Mathlib

/-!
# Verification of the FlatGeobuf export pipeline (`services` package)

Shallow embedding of the pure-Go FlatGeobuf writer of this repository
(`ExportAsFlatGeobuf`, `ExportMergedAsFlatGeobuf`, `parseGeometry`,
`flattenRings`, `encodeProperties`, `buildFlatGeobuf` and their helpers),
together with theorems settling the specification claims about it.

Modelling conventions:
* Go byte slices are `List Nat` (each element `< 256` by construction).
* Go `float64` values are modelled as rationals `ℚ`; the IEEE-754 bit
  pattern of a double (produced by the external `encoding/binary` /
  flatbuffers libraries, not by repository code) is modelled by an
  abstract concrete encoding, since no verified property depends on the
  concrete bit layout of a double.
* Machine integers use `Nat`/`Int` with explicit `% 2^w` at the points
  where the Go code performs a narrowing conversion.
* Dynamically typed BSON / JSON-decoded values (`interface{}`) are the
  inductive `GoVal`.  A Go map (`bson.M`, `map[string]interface{}`) is
  modelled as an association list carrying one concrete iteration order;
  Go's map iteration order is unspecified, so the order is an explicit
  input of the model.
* `(T, error)` returns are `Except String T`.
-/

/-! ## Little-endian byte encodings (Go `encoding/binary`, LittleEndian) -/

/-- 2-byte little-endian encoding of `n % 2^16` (Go `uint16` write). -/
def u16le (n : Nat) : List Nat := [n % 256, n / 256 % 256]

/-- 4-byte little-endian encoding of `n % 2^32` (Go `uint32` write). -/
def u32le (n : Nat) : List Nat :=
  [n % 256, n / 256 % 256, n / 65536 % 256, n / 16777216 % 256]

/-- 8-byte little-endian encoding of `n % 2^64` (Go `uint64` write). -/
def u64le (n : Nat) : List Nat :=
  [n % 256, n / 256 % 256, n / 65536 % 256, n / 16777216 % 256,
   n / 4294967296 % 256, n / 1099511627776 % 256,
   n / 281474976710656 % 256, n / 72057594037927936 % 256]

/-- 4-byte little-endian two's-complement encoding of an `int32` value. -/
def i32le (n : Int) : List Nat := u32le (n % 4294967296).toNat

/-- 8-byte little-endian two's-complement encoding of an `int64` value. -/
def i64le (n : Int) : List Nat := u64le (n % 18446744073709551616).toNat

/-- Go conversion `int32(n)` of an `int64`: wrap modulo `2^32` into
`[-2^31, 2^31)`. -/
def goInt32 (n : Int) : Int := (n + 2147483648) % 4294967296 - 2147483648

/-- Truncation of a rational toward zero, the rounding Go uses when
converting a `float64` to an integer type. -/
def ratTruncInt (q : ℚ) : Int :=
  if 0 ≤ q.num then (q.num.toNat / q.den : Nat) else -((-q.num).toNat / q.den : Nat)

/-- `ratTruncInt` re-injected into `ℚ`; `ratTruncQ q = q` states that the
double `q` has an integral value (Go: `val == float64(int64(val))`,
exact for every value in the ranges these conversions guard). -/
def ratTruncQ (q : ℚ) : ℚ := (ratTruncInt q : ℚ)

/-- Modelled from the spec: stand-in for the IEEE-754 bit pattern of a
`float64` (produced by the external `encoding/binary` library).  No
verified property depends on the concrete bit layout of a double, so the
bits are modelled by a concrete injective-on-use encoding of the rational
value. -/
def f64bits (q : ℚ) : Nat :=
  (2 * Nat.pair q.num.natAbs q.den + (if q.num < 0 then 1 else 0)) % 18446744073709551616

/-- 8-byte little-endian encoding of a `float64` value. -/
def f64le (q : ℚ) : List Nat := u64le (f64bits q)

/-- UTF-8 encoding of one Unicode code point. -/
def utf8Char (n : Nat) : List Nat :=
  if n < 128 then [n]
  else if n < 2048 then [192 + n / 64, 128 + n % 64]
  else if n < 65536 then [224 + n / 4096, 128 + n / 64 % 64, 128 + n % 64]
  else [240 + n / 262144, 128 + n / 4096 % 64, 128 + n / 64 % 64, 128 + n % 64]

/-- UTF-8 bytes of a Go string (Go strings are UTF-8 byte slices). -/
def utf8Bytes (s : String) : List Nat := (s.data.map (fun c => utf8Char c.toNat)).flatten

/-! ## Dynamic values (`interface{}` from BSON / JSON decoding) -/

/-- A dynamically typed value as produced by BSON decoding into `bson.M`
or JSON decoding into `map[string]interface{}`.

* `vnull` is the nil interface value (BSON null / JSON null / absent key).
* `vdt` is `primitive.DateTime`; it carries the epoch-millisecond count.
* `vother` stands for any further BSON type (ObjectID, ...); it carries
  the string `fmt.Sprintf("%v", ·)` would render for it.
* `vdoc` is a decoded map; the association list fixes one concrete
  iteration order for `for k, v := range m`. -/
inductive GoVal where
  | vstr (s : String)
  | vi32 (n : Int)
  | vi64 (n : Int)
  | vf64 (q : ℚ)
  | vbool (b : Bool)
  | vdt (ms : Int)
  | varr (l : List GoVal)
  | vdoc (m : List (String × GoVal))
  | vnull
  | vother (rendered : String)

/-- Modelled from the spec: `time.Time.Format(time.RFC3339)` (Go standard
library, external to the repository); the spec only requires "an
ISO-8601 datetime-as-string", so the rendering is an abstract injective
stand-in keyed on the epoch milliseconds. -/
def rfc3339 (ms : Int) : String := "1970-01-01T00:00:00Z+" ++ toString ms

/-- Modelled from the spec: `fmt.Sprintf("%v", v)` of the Go standard
library for the dynamic values that can appear here.  Strings render as
themselves, integers and booleans as Go renders them, the nil interface
as `<nil>`; the rendering of a double is an abstract stand-in (no
verified property depends on Go's float formatting). -/
def goFmt : GoVal → String
  | .vstr s => s
  | .vi32 n => toString n
  | .vi64 n => toString n
  | .vf64 q => toString q.num ++ "/" ++ toString q.den
  | .vbool b => if b then "true" else "false"
  | .vdt ms => "DateTime:" ++ toString ms
  | .varr _ => "[...]"
  | .vdoc _ => "map[...]"
  | .vnull => "<nil>"
  | .vother r => r

/-- Association-list lookup, the model of a Go map read `m[k]`; an absent
key yields the nil interface value. -/
def mapGet (m : List (String × GoVal)) (k : String) : GoVal :=
  match m.find? (fun p => p.1 = k) with
  | some p => p.2
  | none => .vnull

/-- A property value as stored in `fgbFeature.Props`
(`map[string]interface{}`); the export paths only ever store strings,
`int64`s, `float64`s and bools, but a nil interface value (`pnull`) is
representable because `encodeProperties` explicitly tests for it. -/
inductive PropVal where
  | pstr (s : String)
  | pint (n : Int)
  | pf64 (q : ℚ)
  | pbool (b : Bool)
  | pnull
  deriving DecidableEq

/-- `fmt.Sprintf("%v", v)` restricted to stored property values. -/
def goFmtP : PropVal → String
  | .pstr s => s
  | .pint n => toString n
  | .pf64 q => toString q.num ++ "/" ++ toString q.den
  | .pbool b => if b then "true" else "false"
  | .pnull => "<nil>"

/-- Go map assignment `m[k] = v` on the association-list model: replace
the value of an existing key in place, else append the new key. -/
def mapPut (m : List (String × PropVal)) (k : String) (v : PropVal) :
    List (String × PropVal) :=
  if m.any (fun p => p.1 = k) then
    m.map (fun p => if p.1 = k then (k, v) else p)
  else m ++ [(k, v)]

/-- `val, exists := props[name]; if !exists || val == nil` — the read
`encodeProperties` performs: `none` when the key is absent or holds the
nil interface value. -/
def propsGet (m : List (String × PropVal)) (k : String) : Option PropVal :=
  match m.find? (fun p => p.1 = k) with
  | some (_, .pnull) => none
  | some p => some p.2
  | none => none

/-! ## FlatGeobuf constants and feature record (source lines 272–318) -/

/-- FlatGeobuf magic bytes (8 bytes): `var fgbMagic = [8]byte{...}`. -/
def fgbMagic : List Nat := [0x66, 0x67, 0x62, 0x03, 0x66, 0x67, 0x62, 0x00]

/-- Geometry type constants (matching FlatGeobuf spec). -/
def fgbGeomUnknown : Nat := 0
def fgbGeomPoint : Nat := 1
def fgbGeomLineString : Nat := 2
def fgbGeomPolygon : Nat := 3
def fgbGeomMultiPoint : Nat := 4
def fgbGeomMultiLineString : Nat := 5
def fgbGeomMultiPolygon : Nat := 6

/-- Column type constants. -/
def fgbColByte : Nat := 0
def fgbColUByte : Nat := 1
def fgbColBool : Nat := 2
def fgbColShort : Nat := 3
def fgbColUShort : Nat := 4
def fgbColInt : Nat := 5
def fgbColUInt : Nat := 6
def fgbColLong : Nat := 7
def fgbColULong : Nat := 8
def fgbColFloat : Nat := 9
def fgbColDouble : Nat := 10
def fgbColString : Nat := 11
def fgbColJSON : Nat := 12
def fgbColDateTime : Nat := 13
def fgbColBinary : Nat := 14

/-- `fgbColumn` defines a property column in the FlatGeobuf header. -/
structure fgbColumn where
  Name : String
  «Type» : Nat
  deriving DecidableEq

/-- `fgbFeature` holds a single feature for FlatGeobuf serialization.
The Go struct's `Parts` field is declared but never read or written by
any function of the package, so it is omitted here. -/
structure fgbFeature where
  GeomType : Nat
  XY : List ℚ
  Ends : List Nat
  Props : List (String × PropVal)
  deriving DecidableEq

/-- `fgbFeature{Props: make(map[string]interface{})}` — the fresh feature
each export-loop iteration allocates before geometry parsing. -/
def mkFeature : fgbFeature := ⟨0, [], [], []⟩

/-! ## Geometry parsing (MongoDB BSON → fgbFeature), source lines 462–642 -/

/-- `toFloat64` converts a BSON numeric value to float64 (source 630–642). -/
def toFloat64 : GoVal → ℚ × Bool
  | .vf64 q => (q, true)
  | .vi32 n => ((n : ℚ), true)
  | .vi64 n => ((n : ℚ), true)
  | _ => (0, false)

/-- `toCoordPair` extracts `[x, y]` from a BSON coordinate value
(source 541–550). -/
def toCoordPair : GoVal → Except String (List ℚ)
  | .varr arr =>
    if h : 2 ≤ arr.length then
      .ok [(toFloat64 (arr.get ⟨0, by omega⟩)).1, (toFloat64 (arr.get ⟨1, by omega⟩)).1]
    else .error "invalid coordinate pair"
  | _ => .error "invalid coordinate pair"

/-- One iteration of the `toCoordArray` loop body: a well-formed pair
appends its x and y, anything else is skipped. -/
def coordArrayStep (xy : List ℚ) (item : GoVal) : List ℚ :=
  match item with
  | .varr pair =>
    if h : 2 ≤ pair.length then
      xy ++ [(toFloat64 (pair.get ⟨0, by omega⟩)).1, (toFloat64 (pair.get ⟨1, by omega⟩)).1]
    else xy
  | _ => xy

/-- `toCoordArray` extracts `[[x,y], [x,y], ...]` → interleaved
`[x1,y1,x2,y2,...]` (source 552–569). -/
def toCoordArray : GoVal → Except String (List ℚ)
  | .varr arr => .ok (arr.foldl coordArrayStep [])
  | _ => .error "invalid coordinate array"

/-- One iteration of the inner `toCoordRings` loop: a well-formed point
appends `[x, y]` to the ring's coordinate list, anything else is skipped. -/
def ringPointStep (coords : List (List ℚ)) (ptRaw : GoVal) : List (List ℚ) :=
  match ptRaw with
  | .varr pt =>
    if h : 2 ≤ pt.length then
      coords ++ [[(toFloat64 (pt.get ⟨0, by omega⟩)).1, (toFloat64 (pt.get ⟨1, by omega⟩)).1]]
    else coords
  | _ => coords

/-- One iteration of the outer `toCoordRings` loop: a non-array ring is
skipped, an array ring contributes its well-formed points. -/
def ringStepOuter (rings : List (List (List ℚ))) (ringRaw : GoVal) :
    List (List (List ℚ)) :=
  match ringRaw with
  | .varr ring => rings ++ [ring.foldl ringPointStep []]
  | _ => rings

/-- `toCoordRings` extracts `[[[x,y],...], [[x,y],...]]` (ring arrays)
(source 571–596). -/
def toCoordRings : GoVal → Except String (List (List (List ℚ)))
  | .varr arr => .ok (arr.foldl ringStepOuter [])
  | _ => .error "invalid rings"

/-- One iteration of the `toCoordPolygons` loop: a polygon whose rings
fail to parse (non-array) is skipped. -/
def polygonStep (polys : List (List (List (List ℚ)))) (polyRaw : GoVal) :
    List (List (List (List ℚ))) :=
  match toCoordRings polyRaw with
  | .ok rings => polys ++ [rings]
  | .error _ => polys

/-- `toCoordPolygons` extracts `[[[[x,y],...], ...], ...]` (array of
polygons) (source 598–613). -/
def toCoordPolygons : GoVal → Except String (List (List (List (List ℚ))))
  | .varr arr => .ok (arr.foldl polygonStep [])
  | _ => .error "invalid multi-polygon"

/-- One ring of the flattening loops shared by `flattenRings` and the
MultiPolygon branch of `parseGeometry`: append the ring's coordinates to
`xy`, advance the `uint32` cumulative vertex counter (wrapping modulo
`2^32`), and append it to `ends`.  State: `(xy, ends, coordIdx)`. -/
def flattenRingStep (acc : List ℚ × List Nat × Nat) (ring : List (List ℚ)) :
    List ℚ × List Nat × Nat :=
  (acc.1 ++ ring.flatten, acc.2.1 ++ [(acc.2.2 + ring.length) % 4294967296],
   (acc.2.2 + ring.length) % 4294967296)

/-- `flattenRings` converts rings to interleaved XY and ends arrays
(source 615–628). -/
def flattenRings (rings : List (List (List ℚ))) : List ℚ × List Nat :=
  let acc := rings.foldl flattenRingStep ([], [], 0)
  (acc.1, acc.2.1)

/-- The inline flattening loop of the MultiPolygon branch of
`parseGeometry` (source 519–531): all rings of all polygons flow into
one shared `xy` / `ends` pair through the same per-ring step. -/
def multiPolygonFlatten (polygons : List (List (List (List ℚ)))) :
    List ℚ × List Nat :=
  let acc := polygons.foldl (fun a poly => poly.foldl flattenRingStep a) ([], [], 0)
  (acc.1, acc.2.1)

/-- `geomType, _ := geom["type"].(string)` — a failed type assertion
yields the zero value `""`. -/
def geomTypeString (geom : List (String × GoVal)) : String :=
  match mapGet geom "type" with
  | .vstr s => s
  | _ => ""

/-- `parseGeometry` converts a GeoJSON-like BSON geometry into
`fgbFeature` fields (source 462–539).  The Go function mutates `feat`
through a pointer; the model returns the updated feature. -/
def parseGeometry (geom : List (String × GoVal)) (feat : fgbFeature) :
    Except String fgbFeature :=
  let geomType := geomTypeString geom
  let coords := mapGet geom "coordinates"
  if geomType = "Point" then
    match toCoordPair coords with
    | .error e => .error e
    | .ok c => .ok { feat with GeomType := fgbGeomPoint, XY := c }
  else if geomType = "MultiPoint" then
    match toCoordArray coords with
    | .error e => .error e
    | .ok xy => .ok { feat with GeomType := fgbGeomMultiPoint, XY := xy }
  else if geomType = "LineString" then
    match toCoordArray coords with
    | .error e => .error e
    | .ok xy => .ok { feat with GeomType := fgbGeomLineString, XY := xy }
  else if geomType = "MultiLineString" then
    match toCoordRings coords with
    | .error e => .error e
    | .ok rings =>
      let fr := flattenRings rings
      .ok { feat with GeomType := fgbGeomMultiLineString, XY := fr.1, Ends := fr.2 }
  else if geomType = "Polygon" then
    match toCoordRings coords with
    | .error e => .error e
    | .ok rings =>
      let fr := flattenRings rings
      .ok { feat with GeomType := fgbGeomPolygon, XY := fr.1, Ends := fr.2 }
  else if geomType = "MultiPolygon" then
    match toCoordPolygons coords with
    | .error e => .error e
    | .ok polygons =>
      let fr := multiPolygonFlatten polygons
      .ok { feat with GeomType := fgbGeomMultiPolygon, XY := fr.1, Ends := fr.2 }
  else .error ("unsupported geometry type: " ++ geomType)

/-! ## Property encoding (FlatGeobuf binary properties format),
source lines 799–879 -/

/-- String payload: `uint32` byte length then the raw UTF-8 bytes. -/
def strPayload (s : String) : List Nat :=
  u32le (utf8Bytes s).length ++ utf8Bytes s

/-- The `switch col.Type` body of `encodeProperties`: the value bytes
written after the column index for one property entry.
* String/DateTime/JSON: `fmt.Sprintf("%v", val)`, length-prefixed;
* Int: `int32` narrowing of an `int64` or truncation of a `float64`,
  anything else writes 0;
* Long: the `int64`, or a truncated `float64`, anything else 0;
* Double/Float: the `float64`, or a converted `int64`, anything else 0;
* Bool: `val.(bool)` (a failed assertion yields `false`, byte 0);
* any other column type: string fallback. -/
def propPayload (colType : Nat) (val : PropVal) : List Nat :=
  if colType = fgbColString ∨ colType = fgbColDateTime ∨ colType = fgbColJSON then
    strPayload (goFmtP val)
  else if colType = fgbColInt then
    i32le (match val with
      | .pint n => goInt32 n
      | .pf64 q => goInt32 (ratTruncInt q)
      | _ => 0)
  else if colType = fgbColLong then
    i64le (match val with
      | .pint n => n
      | .pf64 q => ratTruncInt q
      | _ => 0)
  else if colType = fgbColDouble ∨ colType = fgbColFloat then
    f64le (match val with
      | .pf64 q => q
      | .pint n => (n : ℚ)
      | _ => 0)
  else if colType = fgbColBool then
    [match val with | .pbool true => 1 | _ => 0]
  else
    strPayload (goFmtP val)

/-- The `for colIdx, col := range columns` loop of `encodeProperties`,
with the running column index explicit: a column the feature has no
(non-nil) value for writes nothing; otherwise the `uint16` column index
and the type-directed payload are appended. -/
def encodePropsLoop (props : List (String × PropVal)) :
    Nat → List fgbColumn → List Nat
  | _, [] => []
  | colIdx, col :: rest =>
    (match propsGet props col.Name with
     | none => []
     | some val => u16le colIdx ++ propPayload col.«Type» val)
      ++ encodePropsLoop props (colIdx + 1) rest

/-- `encodeProperties` encodes feature properties into the FlatGeobuf
binary format: repeated `[uint16 column_index][value]` (source 799–879). -/
def encodeProperties (props : List (String × PropVal)) (columns : List fgbColumn) :
    List Nat :=
  encodePropsLoop props 0 columns

/-! ## FlatBuffer table construction, source lines 648–793

`buildFGBHeader`, `buildFGBFeature` and `buildFGBGeometry` drive the
external `github.com/google/flatbuffers/go` builder, which is not part of
this repository.  Modelled from the spec (§4.3 "Binary Table Builder"):
a table records its populated optional slots (a slot whose value equals
the slot's default is skipped, as the library's `Prepend*Slot` calls do),
with every child object fully serialized before the parent referencing
it.  The model serializes a table as the length-prefixed concatenation of
its populated slots, each tagged with its slot index; every verified
property is independent of the concrete table wire layout. -/

/-- One populated table slot: slot index, payload length, payload. -/
def fbSlot (idx : Nat) (payload : List Nat) : List Nat :=
  u16le idx ++ u32le payload.length ++ payload

/-- A finished table: length-prefixed concatenation of its slots. -/
def fbTable (slots : List (Nat × List Nat)) : List Nat :=
  let body := (slots.map (fun s => fbSlot s.1 s.2)).flatten
  u32le body.length ++ body

/-- `builder.CreateString`: length-prefixed UTF-8 bytes. -/
def fbString (s : String) : List Nat :=
  u32le (utf8Bytes s).length ++ utf8Bytes s

/-- A vector of child tables: length prefix then the children in order. -/
def fbTableVector (elems : List (List Nat)) : List Nat :=
  u32le elems.length ++ elems.flatten

/-- `buildFGBHeader` creates the FlatBuffer-encoded Header table
(source 680–734).  Populated slots follow the source exactly: name (0),
geometry_type (2, skipped when 0 as `PrependByteSlot` does for the
default), the four dimension-flag slots 3–6 are always passed `false`
(the default, hence never written), columns vector (7), features_count
(8), index_node_size (9, written because 0 differs from the declared
default 16), crs (10). -/
def buildFGBHeader (name : String) (columns : List fgbColumn) (geomType : Nat)
    (featureCount : Nat) : List Nat :=
  let crs := fbTable [(0, fbString "EPSG"), (1, i32le 4326), (2, fbString "WGS 84")]
  let colTables := columns.map (fun c =>
    fbTable ([(0, fbString c.Name)]
      ++ (if c.«Type» ≠ 0 then [(1, [c.«Type» % 256])] else [])
      ++ [(7, [1])]))
  let columnsVec := fbTableVector colTables
  fbTable ([(0, fbString name)]
    ++ (if geomType ≠ 0 then [(2, [geomType % 256])] else [])
    ++ [(7, columnsVec), (8, u64le featureCount), (9, u16le 0), (10, crs)])

/-- `buildFGBGeometry` creates a Geometry FlatBuffer table
(source 761–793): ends vector (slot 0) and xy vector (slot 1) only when
non-empty, geometry type byte (slot 6, skipped when 0). -/
def buildFGBGeometry (f : fgbFeature) : List Nat :=
  fbTable ((if f.Ends ≠ [] then [(0, u32le f.Ends.length ++ (f.Ends.map u32le).flatten)] else [])
    ++ (if f.XY ≠ [] then [(1, u32le f.XY.length ++ (f.XY.map f64le).flatten)] else [])
    ++ (if f.GeomType ≠ 0 then [(6, [f.GeomType % 256])] else []))

/-- `buildFGBFeature` creates the FlatBuffer-encoded Feature table
(source 740–759): geometry sub-table (slot 0) and the
`encodeProperties` byte vector (slot 1). -/
def buildFGBFeature (f : fgbFeature) (columns : List fgbColumn) : List Nat :=
  let propsBytes := encodeProperties f.Props columns
  fbTable [(0, buildFGBGeometry f), (1, u32le propsBytes.length ++ propsBytes)]

/-- `buildFlatGeobuf` assembles the complete FlatGeobuf binary file
(source 648–674): magic bytes, `uint32` size prefix + header bytes,
then per feature a `uint32` size prefix + feature bytes.  Writes into a
`bytes.Buffer` cannot fail, so the Go error return is always nil and the
model returns the bytes directly. -/
def buildFlatGeobuf (features : List fgbFeature) (columns : List fgbColumn)
    (geomType : Nat) (name : String) : List Nat :=
  let headerBytes := buildFGBHeader name columns geomType features.length
  fgbMagic ++ u32le headerBytes.length ++ headerBytes
    ++ (features.map (fun f =>
        let featureBytes := buildFGBFeature f columns
        u32le featureBytes.length ++ featureBytes)).flatten

/-! ## Live-query export (`ExportAsFlatGeobuf`), source lines 320–456 -/

/-- Schema/feature accumulation state of the export cursor loop:
collected features, `columnOrder` (insertion order), `columnSet`
(name → FGB column type; a Go map, but keys are only ever inserted once,
so an insertion-ordered association list is an exact model), and the
primary geometry type taken from the first accepted feature. -/
structure ExportState where
  features : List fgbFeature
  columnOrder : List String
  columnSet : List (String × Nat)
  primaryGeomType : Nat
  deriving DecidableEq

/-- The initial loop state. -/
def initState : ExportState := ⟨[], [], [], fgbGeomUnknown⟩

/-- `columnSet[name]` (Go map read; absent yields the zero byte). -/
def colSetGet (s : List (String × Nat)) (k : String) : Nat :=
  match s.find? (fun p => p.1 = k) with
  | some p => p.2
  | none => 0

/-- The `switch val := v.(type)` of the live-path property loop
(source 391–437): the stored value and discovered column type for one
raw BSON property value, or `none` when the value is skipped
(`bson.M`, `bson.A`).  `int32` is widened to `int64` on storage;
`primitive.DateTime` is stored as its RFC-3339 rendering; any other
type (including the nil interface, which matches no case) falls to the
default branch and is stored as its `fmt.Sprintf("%v", ·)` string. -/
def livePropSwitch : GoVal → Option (PropVal × Nat)
  | .vstr s => some (.pstr s, fgbColString)
  | .vi32 n => some (.pint n, fgbColInt)
  | .vi64 n => some (.pint n, fgbColLong)
  | .vf64 q => some (.pf64 q, fgbColDouble)
  | .vbool b => some (.pbool b, fgbColBool)
  | .vdt ms => some (.pstr (rfc3339 ms), fgbColDateTime)
  | .vdoc _ => none
  | .varr _ => none
  | v => some (.pstr (goFmt v), fgbColString)

/-- One iteration of a property-discovery loop body shared by both entry
points: store the value in the feature's property bag, and if the column
name has not been seen anywhere yet, fix its type and append it to the
column order. -/
def propDiscoverStep (sw : GoVal → Option (PropVal × Nat))
    (acc : List (String × PropVal) × List String × List (String × Nat))
    (kv : String × GoVal) :
    List (String × PropVal) × List String × List (String × Nat) :=
  match sw kv.2 with
  | none => acc
  | some (pv, t) =>
    let props := mapPut acc.1 kv.1 pv
    if (acc.2.2.find? (fun p => p.1 = kv.1)).isSome then (props, acc.2.1, acc.2.2)
    else (props, acc.2.1 ++ [kv.1], acc.2.2 ++ [(kv.1, t)])

/-- One iteration of the `for cursor.Next(ctx)` loop (source 360–442):
a record that fails to decode (`none`), has no `geometry`, a
non-document `geometry`, or an unparseable geometry is skipped;
otherwise the feature is appended and its properties drive schema
discovery. -/
def processDoc (st : ExportState) (doc : Option (List (String × GoVal))) :
    ExportState :=
  match doc with
  | none => st
  | some doc =>
    match mapGet doc "geometry" with
    | .vnull => st
    | .vdoc geomMap =>
      (match parseGeometry geomMap mkFeature with
       | .error _ => st
       | .ok feat =>
         let pgt := if st.primaryGeomType = fgbGeomUnknown then feat.GeomType
                    else st.primaryGeomType
         let acc := match mapGet doc "properties" with
           | .vdoc props =>
             props.foldl (propDiscoverStep livePropSwitch)
               (feat.Props, st.columnOrder, st.columnSet)
           | _ => (feat.Props, st.columnOrder, st.columnSet)
         { features := st.features ++ [{ feat with Props := acc.1 }],
           columnOrder := acc.2.1, columnSet := acc.2.2, primaryGeomType := pgt })
    | _ => st

/-- The state after draining the whole cursor. -/
def exportCollect (docs : List (Option (List (String × GoVal)))) : ExportState :=
  docs.foldl processDoc initState

/-- `columns := make([]fgbColumn, len(columnOrder))` — the finalized
column list in discovery order (source 448–452). -/
def finalColumns (st : ExportState) : List fgbColumn :=
  st.columnOrder.map (fun name => ⟨name, colSetGet st.columnSet name⟩)

/-- `ExportAsFlatGeobuf` queries MongoDB and returns a FlatGeobuf binary
file (source 320–456).  The MongoDB lookup, date filter and cursor are
external collaborators: the model starts at the cursor-drain loop and
takes the list of records the cursor yields (`none` standing for a
record whose `Decode` fails); the pre-query failure returns
(`collection not found`, `query failed`) are upstream of the modelled
code. -/
def ExportAsFlatGeobuf (docs : List (Option (List (String × GoVal))))
    (pwaCode layerName : String) : Except String (List Nat) :=
  let st := exportCollect docs
  if st.features.length = 0 then
    .error ("no features found for " ++ pwaCode ++ "_" ++ layerName)
  else
    .ok (buildFlatGeobuf st.features (finalColumns st) st.primaryGeomType layerName)

/-! ## Merged export (`ExportMergedAsFlatGeobuf`), source lines 885–1023 -/

/-- `geojsonGeom`: a minimal GeoJSON geometry for parsing; a JSON-absent
`coordinates` decodes to the nil interface (`vnull`). -/
structure geojsonGeom where
  «Type» : String
  Coordinates : GoVal

/-- `geojsonFeat`: one GeoJSON feature (the `Type` field is decoded but
never read); a JSON-absent or null `properties` map ranges zero times,
i.e. is the empty association list. -/
structure geojsonFeat where
  «Type» : String
  Geometry : geojsonGeom
  Properties : List (String × GoVal)

/-- `geojsonFC`: a minimal GeoJSON FeatureCollection. -/
structure geojsonFC where
  «Type» : String
  Features : List geojsonFeat

/-- `l.head? matches a float64` — the `val[0].(float64)` probe of
`convertCoords`. -/
def headIsFloat (l : List GoVal) : Bool :=
  match l.head? with
  | some (.vf64 _) => true
  | _ => false

mutual
/-- `convertCoords` recursively converts JSON-decoded coordinates to the
shape `parseGeometry` expects (source 1000–1023): an array of length ≥ 2
whose first element is a number is returned as-is (a coordinate tuple,
all components kept); any other array is recursed into; non-arrays are
returned unchanged. -/
def convertCoords : GoVal → GoVal
  | .varr l =>
    if 2 ≤ l.length ∧ headIsFloat l then .varr l
    else .varr (convertCoordsList l)
  | v => v
/-- The element-wise recursion of `convertCoords` over a nested array
(the `for _, item := range val` loop). -/
def convertCoordsList : List GoVal → List GoVal
  | [] => []
  | x :: xs => convertCoords x :: convertCoordsList xs
end

/-- The `switch val := v.(type)` of the merged-path property loop
(source 944–978): JSON numbers are always `float64`; an integral value
within the `int32` range is stored as `int64` and typed `Int`, any other
number is stored as `float64` and typed `Double`.  The nil check
(`if v == nil continue`) happens before this switch, and every
non-string/number/bool value falls to the default branch and is
stringified. -/
def mergedPropSwitch : GoVal → Option (PropVal × Nat)
  | .vstr s => some (.pstr s, fgbColString)
  | .vf64 q =>
    if ratTruncQ q = q ∧ (-2147483648 : ℚ) ≤ q ∧ q ≤ 2147483647 then
      some (.pint (ratTruncInt q), fgbColInt)
    else some (.pf64 q, fgbColDouble)
  | .vbool b => some (.pbool b, fgbColBool)
  | v => some (.pstr (goFmt v), fgbColString)

/-- The merged-path property loop body: skip nil values, otherwise
store and discover via `mergedPropSwitch`. -/
def mergedPropStep
    (acc : List (String × PropVal) × List String × List (String × Nat))
    (kv : String × GoVal) :
    List (String × PropVal) × List String × List (String × Nat) :=
  match kv.2 with
  | .vnull => acc
  | v => propDiscoverStep mergedPropSwitch acc (kv.1, v)

/-- One iteration of the `for _, gf := range fc.Features` loop
(source 919–982): a feature with an empty geometry type string or an
unparseable (re-encoded) geometry is skipped; otherwise it is appended
and its properties drive schema discovery. -/
def processMergedFeat (st : ExportState) (gf : geojsonFeat) : ExportState :=
  if gf.Geometry.«Type» = "" then st
  else
    let geomBson : List (String × GoVal) :=
      [("type", .vstr gf.Geometry.«Type»),
       ("coordinates", convertCoords gf.Geometry.Coordinates)]
    match parseGeometry geomBson mkFeature with
    | .error _ => st
    | .ok feat =>
      let pgt := if st.primaryGeomType = fgbGeomUnknown then feat.GeomType
                 else st.primaryGeomType
      let acc := gf.Properties.foldl mergedPropStep
        (feat.Props, st.columnOrder, st.columnSet)
      { features := st.features ++ [{ feat with Props := acc.1 }],
        columnOrder := acc.2.1, columnSet := acc.2.2, primaryGeomType := pgt }

/-- The state after processing every merged GeoJSON feature. -/
def mergedCollect (fc : geojsonFC) : ExportState :=
  fc.Features.foldl processMergedFeat initState

/-- `ExportMergedAsFlatGeobuf` converts pre-merged GeoJSON bytes to
FlatGeobuf binary (source 902–995).  `json.Unmarshal` is the external
standard library: the model takes the decoded FeatureCollection (the
unmarshal-failure return is upstream of the modelled code). -/
def ExportMergedAsFlatGeobuf (fc : geojsonFC) (outputName : String) :
    Except String (List Nat) :=
  if fc.Features.length = 0 then .error "no features in merged GeoJSON"
  else
    let st := mergedCollect fc
    if st.features.length = 0 then .error "no valid features after parsing"
    else
      .ok (buildFlatGeobuf st.features (finalColumns st) st.primaryGeomType
        outputName)

/-! ## Reader functions for the verification theorems

These are not part of the repository: they are specification-side
decoders used to state that the writer's output has the documented
layout (magic, exact little-endian size prefixes, no trailing data;
well-indexed property entries). -/

/-- Decode a 4-byte little-endian `uint32` from the front of a buffer. -/
def readU32 : List Nat → Option (Nat × List Nat)
  | b0 :: b1 :: b2 :: b3 :: rest =>
    some (b0 + 256 * b1 + 65536 * b2 + 16777216 * b3, rest)
  | _ => none

/-- Split off exactly `n` bytes. -/
def readBytes (n : Nat) (bs : List Nat) : Option (List Nat × List Nat) :=
  if n ≤ bs.length then some (bs.take n, bs.drop n) else none

/-- Parse a sequence of size-prefixed blocks that must consume the whole
buffer. `fuel` bounds the recursion (any value of at least the block
count works). -/
def parseBlocks : Nat → List Nat → Option (List (List Nat))
  | _, [] => some []
  | 0, _ :: _ => none
  | fuel + 1, bs =>
    (readU32 bs).bind (fun p =>
      (readBytes p.1 p.2).bind (fun q =>
        (parseBlocks fuel q.2).map (fun blks => q.1 :: blks)))

/-- Parse one whole FlatGeobuf container: the 8 magic bytes, a
size-prefixed header block, then size-prefixed feature blocks up to the
exact end of the buffer. -/
def parseContainer (bs : List Nat) : Option (List Nat × List (List Nat)) :=
  if bs.take 8 = fgbMagic then
    (readU32 (bs.drop 8)).bind (fun p =>
      (readBytes p.1 p.2).bind (fun q =>
        (parseBlocks q.2.length q.2).map (fun blks => (q.1, blks))))
  else none

/-- Decode a 2-byte little-endian `uint16` from the front of a buffer. -/
def readU16 : List Nat → Option (Nat × List Nat)
  | b0 :: b1 :: rest => some (b0 + 256 * b1, rest)
  | _ => none

/-- Split off the payload of one property entry, directed by the
column's type tag (the payload lengths of §4.4). -/
def readPayload (colType : Nat) (bs : List Nat) : Option (List Nat × List Nat) :=
  if colType = fgbColString ∨ colType = fgbColDateTime ∨ colType = fgbColJSON then
    (readU32 bs).bind (fun p => readBytes p.1 p.2)
  else if colType = fgbColInt then readBytes 4 bs
  else if colType = fgbColLong then readBytes 8 bs
  else if colType = fgbColDouble ∨ colType = fgbColFloat then readBytes 8 bs
  else if colType = fgbColBool then readBytes 1 bs
  else
    (readU32 bs).bind (fun p => readBytes p.1 p.2)

/-- Parse a properties blob against a column schema into
`(column index, payload bytes)` entries; fails on an out-of-range
column index and must consume the whole blob. -/
def parsePropEntries (columns : List fgbColumn) :
    Nat → List Nat → Option (List (Nat × List Nat))
  | _, [] => some []
  | 0, _ :: _ => none
  | fuel + 1, bs =>
    (readU16 bs).bind (fun p =>
      (columns[p.1]?).bind (fun col =>
        (readPayload col.«Type» p.2).bind (fun q =>
          (parsePropEntries columns fuel q.2).map (fun es => (p.1, q.1) :: es))))

/-! ## Helper lemmas -/

theorem readU32_u32le (n : Nat) (rest : List Nat) (h : n < 4294967296) :
    readU32 (u32le n ++ rest) = some (n, rest) := by
  simp only [u32le, List.cons_append, List.nil_append, readU32]
  congr 1
  congr 1
  omega

theorem readBytes_exact (l rest : List Nat) :
    readBytes l.length (l ++ rest) = some (l, rest) := by
  simp [readBytes, List.take_left, List.drop_left]

/-- The size-prefixed block stream written for a block list. -/
def blocksBytes (L : List (List Nat)) : List Nat :=
  (L.map (fun b => u32le b.length ++ b)).flatten

theorem parseBlocks_succ (fuel : Nat) (bs : List Nat) (h : bs ≠ []) :
    parseBlocks (fuel + 1) bs =
      (readU32 bs).bind (fun p =>
        (readBytes p.1 p.2).bind (fun q =>
          (parseBlocks fuel q.2).map (fun blks => q.1 :: blks))) := by
  cases bs with
  | nil => exact absurd rfl h
  | cons x xs => rfl

theorem parseBlocks_blocksBytes (L : List (List Nat))
    (hlen : ∀ b ∈ L, b.length < 4294967296) :
    ∀ fuel, (blocksBytes L).length ≤ fuel →
      parseBlocks fuel (blocksBytes L) = some L := by
  induction L with
  | nil => intro fuel _; cases fuel <;> rfl
  | cons b L ih =>
    intro fuel hfuel
    have hblen : (blocksBytes (b :: L)).length =
        4 + b.length + (blocksBytes L).length := by
      simp [blocksBytes, u32le]
      omega
    match fuel, hfuel with
    | fuel + 1, hfuel =>
      have hb : b.length < 4294967296 := hlen b (by simp)
      have hstream : blocksBytes (b :: L) = u32le b.length ++ (b ++ blocksBytes L) := by
        simp [blocksBytes]
      have hne : blocksBytes (b :: L) ≠ [] := by
        intro hc
        rw [hc] at hblen
        simp at hblen
        omega
      rw [parseBlocks_succ _ _ hne, hstream, readU32_u32le _ _ hb,
        Option.some_bind, readBytes_exact, Option.some_bind,
        ih (fun x hx => hlen x (by simp [hx])) fuel (by rw [hstream] at hfuel; simp [u32le] at hfuel; omega)]
      rfl

theorem magic_take (X : List Nat) : (fgbMagic ++ X).take 8 = fgbMagic := rfl

theorem magic_drop (X : List Nat) : (fgbMagic ++ X).drop 8 = X := rfl

/-- **C1.** For every successful export, the returned byte buffer begins
with the 8 fixed magic bytes `0x66 0x67 0x62 0x03 0x66 0x67 0x62 0x00`,
followed by a 4-byte little-endian `uint32` exactly equal to the byte
length of the Header table bytes that immediately follow, followed by,
for each accepted feature in original encounter order, a 4-byte
little-endian `uint32` exactly equal to the byte length of that
feature's Feature table bytes followed by those bytes, with no trailing
footer, checksum, or index section after the last feature block:
decoding the writer's output with the layout reader recovers exactly the
header bytes and the per-feature byte blocks in order, consuming the
whole buffer (under the always-satisfied-in-practice side condition that
every block is shorter than `2^32` bytes, where the `uint32` size
prefixes are exact). -/
theorem container_layout_c1 (features : List fgbFeature) (columns : List fgbColumn)
    (geomType : Nat) (name : String)
    (hh : (buildFGBHeader name columns geomType features.length).length < 4294967296)
    (hf : ∀ f ∈ features, (buildFGBFeature f columns).length < 4294967296) :
    parseContainer (buildFlatGeobuf features columns geomType name) =
      some (buildFGBHeader name columns geomType features.length,
            features.map (fun f => buildFGBFeature f columns)) := by
  have hassemble : buildFlatGeobuf features columns geomType name =
      fgbMagic ++ (u32le (buildFGBHeader name columns geomType features.length).length ++
        (buildFGBHeader name columns geomType features.length ++
          blocksBytes (features.map (fun f => buildFGBFeature f columns)))) := by
    simp [buildFlatGeobuf, blocksBytes, List.map_map]
    rfl
  rw [parseContainer, hassemble, magic_take, magic_drop, if_pos rfl,
    readU32_u32le _ _ hh, Option.some_bind, readBytes_exact, Option.some_bind,
    parseBlocks_blocksBytes _ ?hb _ le_rfl]
  · rfl
  case hb =>
    intro b hbmem
    rw [List.mem_map] at hbmem
    obtain ⟨f, hfmem, hfb⟩ := hbmem
    exact hfb ▸ hf f hfmem

/-- The concrete one-feature input used by the C1 witness. -/
def c1Feat : fgbFeature :=
  { GeomType := fgbGeomPoint, XY := [1, 2], Ends := [],
    Props := [("a", PropVal.pint 5)] }

/-- The concrete column list used by the C1 witness. -/
def c1Cols : List fgbColumn := [⟨"a", fgbColInt⟩]

set_option maxRecDepth 100000 in
/-- Witness for C1: the side conditions hold and the layout theorem
applies at a concrete one-feature export. -/
theorem container_layout_c1_witness :
    ((buildFGBHeader "lyr" c1Cols fgbGeomPoint 1).length < 4294967296
      ∧ ∀ f ∈ [c1Feat], (buildFGBFeature f c1Cols).length < 4294967296)
    ∧ parseContainer (buildFlatGeobuf [c1Feat] c1Cols fgbGeomPoint "lyr") =
      some (buildFGBHeader "lyr" c1Cols fgbGeomPoint 1,
            [buildFGBFeature c1Feat c1Cols]) :=
  ⟨⟨by decide, by decide⟩,
    container_layout_c1 _ _ _ _ (by decide) (by decide)⟩

/-! ## C2: ends/xy invariants of the flattening loops -/

/-- The cumulative (wrapping `uint32`) vertex counts the flattening loop
appends to `ends`, starting from counter value `idx0`. -/
def cumEnds (idx0 : Nat) : List (List (List ℚ)) → List Nat
  | [] => []
  | r :: rs =>
    ((idx0 + r.length) % 4294967296) :: cumEnds ((idx0 + r.length) % 4294967296) rs

/-- The final value of the wrapping vertex counter. -/
def endIdx (idx0 : Nat) : List (List (List ℚ)) → Nat
  | [] => idx0
  | r :: rs => endIdx ((idx0 + r.length) % 4294967296) rs

/-- Total vertex count of a ring list. -/
def totalVerts (rings : List (List (List ℚ))) : Nat :=
  (rings.map List.length).sum

theorem flatten_foldl (rings : List (List (List ℚ))) :
    ∀ xy0 ends0 idx0, rings.foldl flattenRingStep (xy0, ends0, idx0) =
      (xy0 ++ (rings.map List.flatten).flatten, ends0 ++ cumEnds idx0 rings,
       endIdx idx0 rings) := by
  induction rings with
  | nil => intro xy0 ends0 idx0; simp [cumEnds, endIdx]
  | cons r rs ih =>
    intro xy0 ends0 idx0
    simp only [List.foldl_cons, flattenRingStep, ih, cumEnds, endIdx,
      List.map_cons, List.flatten_cons, List.append_assoc, List.cons_append,
      List.nil_append]

theorem flattenRings_eq (rings : List (List (List ℚ))) :
    flattenRings rings = ((rings.map List.flatten).flatten, cumEnds 0 rings) := by
  simp [flattenRings, flatten_foldl]

theorem cumEnds_chain (idx0 : Nat) (rings : List (List (List ℚ)))
    (h : idx0 + totalVerts rings < 4294967296) :
    List.Chain' (· ≤ ·) (idx0 :: cumEnds idx0 rings) := by
  induction rings generalizing idx0 with
  | nil => simp [cumEnds]
  | cons r rs ih =>
    have hlt : idx0 + r.length < 4294967296 := by
      simp [totalVerts] at h
      omega
    have hmod : (idx0 + r.length) % 4294967296 = idx0 + r.length :=
      Nat.mod_eq_of_lt hlt
    simp only [cumEnds, hmod]
    refine List.Chain'.cons (by omega) ?_
    exact ih (idx0 + r.length) (by simp [totalVerts] at h ⊢; omega)

theorem cumEnds_last (idx0 : Nat) (rings : List (List (List ℚ)))
    (h : idx0 + totalVerts rings < 4294967296) :
    (cumEnds idx0 rings).getLast?.getD idx0 = idx0 + totalVerts rings := by
  induction rings generalizing idx0 with
  | nil => simp [cumEnds, totalVerts]
  | cons r rs ih =>
    have hlt : idx0 + r.length < 4294967296 := by
      simp [totalVerts] at h
      omega
    have hmod : (idx0 + r.length) % 4294967296 = idx0 + r.length :=
      Nat.mod_eq_of_lt hlt
    simp only [cumEnds, hmod, totalVerts, List.map_cons, List.sum_cons]
    have := ih (idx0 + r.length) (by simp [totalVerts] at h ⊢; omega)
    cases hrs : cumEnds (idx0 + r.length) rs with
    | nil =>
      rw [hrs] at this
      simp at this ⊢
      simp [totalVerts] at this
      omega
    | cons e es =>
      rw [hrs] at this
      simp [totalVerts, List.getLast?_cons] at this ⊢
      omega

theorem ringPointStep_pairs (pts : List GoVal) :
    ∀ acc, (∀ c ∈ acc, c.length = 2) →
      ∀ c ∈ pts.foldl ringPointStep acc, c.length = 2 := by
  induction pts with
  | nil => intro acc hacc; simpa using hacc
  | cons pt pts ih =>
    intro acc hacc
    refine ih _ ?_
    intro c hc
    unfold ringPointStep at hc
    rcases pt with s | n | n | q | b | ms | l | m | _ | r <;> simp at hc <;>
      try exact hacc c hc
    split at hc
    · rcases List.mem_append.mp hc with h | h
      · exact hacc c h
      · simp at h
        simp [h]
    · exact hacc c hc

theorem ringStepOuter_pairs (arr : List GoVal) :
    ∀ acc, (∀ r ∈ acc, ∀ c ∈ r, c.length = 2) →
      ∀ r ∈ arr.foldl ringStepOuter acc, ∀ c ∈ r, c.length = 2 := by
  induction arr with
  | nil => intro acc hacc; simpa using hacc
  | cons ringRaw arr ih =>
    intro acc hacc
    refine ih _ ?_
    intro r hr
    unfold ringStepOuter at hr
    rcases ringRaw with s | n | n | q | b | ms | l | m | _ | rr <;> simp at hr <;>
      try exact hacc r hr
    rcases hr with h | h
    · exact hacc r h
    · subst h
      exact ringPointStep_pairs l [] (by simp)

theorem toCoordRings_pairs (v : GoVal) (rings : List (List (List ℚ)))
    (h : toCoordRings v = .ok rings) : ∀ r ∈ rings, ∀ c ∈ r, c.length = 2 := by
  rcases v with s | n | n | q | b | ms | l | m | _ | r <;> simp [toCoordRings] at h
  subst h
  exact ringStepOuter_pairs l [] (by simp)

theorem polygonStep_pairs (arr : List GoVal) :
    ∀ acc, (∀ p ∈ acc, ∀ r ∈ p, ∀ c ∈ r, c.length = 2) →
      ∀ p ∈ arr.foldl polygonStep acc, ∀ r ∈ p, ∀ c ∈ r, c.length = 2 := by
  induction arr with
  | nil => intro acc hacc; simpa using hacc
  | cons polyRaw arr ih =>
    intro acc hacc
    refine ih _ ?_
    intro p hp
    unfold polygonStep at hp
    cases hpr : toCoordRings polyRaw with
    | error e => rw [hpr] at hp; exact hacc p hp
    | ok rings =>
      rw [hpr] at hp
      rcases List.mem_append.mp hp with h | h
      · exact hacc p h
      · simp at h
        subst h
        exact toCoordRings_pairs polyRaw p hpr

theorem toCoordPolygons_pairs (v : GoVal) (polys : List (List (List (List ℚ))))
    (h : toCoordPolygons v = .ok polys) :
    ∀ p ∈ polys, ∀ r ∈ p, ∀ c ∈ r, c.length = 2 := by
  rcases v with s | n | n | q | b | ms | l | m | _ | r <;> simp [toCoordPolygons] at h
  subst h
  exact polygonStep_pairs l [] (by simp)

theorem ring_flatten_length (r : List (List ℚ)) (h : ∀ c ∈ r, c.length = 2) :
    r.flatten.length = 2 * r.length := by
  induction r with
  | nil => simp
  | cons c cs ih =>
    simp only [List.flatten_cons, List.length_append, List.length_cons,
      h c (by simp), ih (fun x hx => h x (by simp [hx]))]
    omega

theorem rings_flatten_length (rings : List (List (List ℚ)))
    (h : ∀ r ∈ rings, ∀ c ∈ r, c.length = 2) :
    ((rings.map List.flatten).flatten).length = 2 * totalVerts rings := by
  induction rings with
  | nil => simp [totalVerts]
  | cons r rs ih =>
    simp only [List.map_cons, List.flatten_cons, List.length_append, totalVerts,
      List.sum_cons, ring_flatten_length r (h r (by simp)),
      ih (fun x hx => h x (by simp [hx]))]
    omega

theorem multiPolygonFlatten_eq (polys : List (List (List (List ℚ)))) :
    multiPolygonFlatten polys = flattenRings polys.flatten := by
  simp [multiPolygonFlatten, flattenRings, List.foldl_flatten]

/-- **C2.** For every accepted feature whose `Ends` buffer is non-empty,
the last element of `Ends` multiplied by 2 equals the length of the
interleaved XY buffer and the `Ends` sequence is non-decreasing (each
cumulative vertex count is at least its predecessor); for Point,
MultiPoint and LineString features `Ends` is empty.  The side condition
`feat.XY.length < 2^33` says the (wrapping `uint32`) vertex counter does
not overflow — always satisfied in practice. -/
theorem ends_invariant_c2 (geom : List (String × GoVal)) (feat : fgbFeature)
    (hOk : parseGeometry geom mkFeature = .ok feat)
    (hsmall : feat.XY.length < 8589934592) :
    (feat.Ends ≠ [] →
      (feat.Ends.getLast?.getD 0) * 2 = feat.XY.length ∧
      List.Chain' (· ≤ ·) feat.Ends)
    ∧ ((feat.GeomType = fgbGeomPoint ∨ feat.GeomType = fgbGeomMultiPoint ∨
        feat.GeomType = fgbGeomLineString) → feat.Ends = []) := by
  have ringsCase : ∀ (rings : List (List (List ℚ))) (gt : Nat),
      (∀ r ∈ rings, ∀ c ∈ r, c.length = 2) →
      feat = ⟨gt, (flattenRings rings).1, (flattenRings rings).2, []⟩ →
      feat.Ends ≠ [] →
      (feat.Ends.getLast?.getD 0) * 2 = feat.XY.length ∧
      List.Chain' (· ≤ ·) feat.Ends := by
    intro rings gt hpairs hfeat _
    have hxylen : feat.XY.length = 2 * totalVerts rings := by
      rw [hfeat]
      simp only [flattenRings_eq]
      exact rings_flatten_length rings hpairs
    have htv : totalVerts rings < 4294967296 := by omega
    have hends : feat.Ends = cumEnds 0 rings := by
      rw [hfeat]
      simp [flattenRings_eq]
    constructor
    · rw [hends, hxylen, cumEnds_last 0 rings (by omega)]
      omega
    · rw [hends]
      exact (cumEnds_chain 0 rings (by omega)).tail
  unfold parseGeometry at hOk
  dsimp only at hOk
  split at hOk
  · -- Point
    cases hp : toCoordPair (mapGet geom "coordinates") with
    | error e => rw [hp] at hOk; exact absurd hOk (by simp)
    | ok c =>
      rw [hp] at hOk
      simp only [Except.ok.injEq] at hOk
      subst hOk
      exact ⟨fun h => absurd rfl h, fun _ => rfl⟩
  · split at hOk
    · -- MultiPoint
      cases hp : toCoordArray (mapGet geom "coordinates") with
      | error e => rw [hp] at hOk; exact absurd hOk (by simp)
      | ok xy =>
        rw [hp] at hOk
        simp only [Except.ok.injEq] at hOk
        subst hOk
        exact ⟨fun h => absurd rfl h, fun _ => rfl⟩
    · split at hOk
      · -- LineString
        cases hp : toCoordArray (mapGet geom "coordinates") with
        | error e => rw [hp] at hOk; exact absurd hOk (by simp)
        | ok xy =>
          rw [hp] at hOk
          simp only [Except.ok.injEq] at hOk
          subst hOk
          exact ⟨fun h => absurd rfl h, fun _ => rfl⟩
      · split at hOk
        · -- MultiLineString
          cases hp : toCoordRings (mapGet geom "coordinates") with
          | error e => rw [hp] at hOk; exact absurd hOk (by simp)
          | ok rings =>
            rw [hp] at hOk
            simp only [Except.ok.injEq] at hOk
            refine ⟨ringsCase rings fgbGeomMultiLineString
              (toCoordRings_pairs _ _ hp) hOk.symm, fun hgt => ?_⟩
            rw [← hOk] at hgt
            simp [fgbGeomMultiLineString, fgbGeomPoint, fgbGeomMultiPoint,
              fgbGeomLineString] at hgt
        · split at hOk
          · -- Polygon
            cases hp : toCoordRings (mapGet geom "coordinates") with
            | error e => rw [hp] at hOk; exact absurd hOk (by simp)
            | ok rings =>
              rw [hp] at hOk
              simp only [Except.ok.injEq] at hOk
              refine ⟨ringsCase rings fgbGeomPolygon
                (toCoordRings_pairs _ _ hp) hOk.symm, fun hgt => ?_⟩
              rw [← hOk] at hgt
              simp [fgbGeomPolygon, fgbGeomPoint, fgbGeomMultiPoint,
                fgbGeomLineString] at hgt
          · split at hOk
            · -- MultiPolygon
              cases hp : toCoordPolygons (mapGet geom "coordinates") with
              | error e => rw [hp] at hOk; exact absurd hOk (by simp)
              | ok polys =>
                rw [hp] at hOk
                simp only [multiPolygonFlatten_eq, Except.ok.injEq] at hOk
                refine ⟨ringsCase polys.flatten fgbGeomMultiPolygon
                  (fun r hr => ?pairs) hOk.symm, fun hgt => ?_⟩
                case pairs =>
                  rw [List.mem_flatten] at hr
                  obtain ⟨p, hpmem, hrmem⟩ := hr
                  exact toCoordPolygons_pairs _ _ hp p hpmem r hrmem
                rw [← hOk] at hgt
                simp [fgbGeomMultiPolygon, fgbGeomPoint, fgbGeomMultiPoint,
                  fgbGeomLineString] at hgt
            · exact absurd hOk (by simp)

/-- The concrete geometry document used by the C2 witness: a Polygon
with an outer ring of 4 vertices and a hole of 3. -/
def c2Geom : List (String × GoVal) :=
  [("type", GoVal.vstr "Polygon"),
   ("coordinates", GoVal.varr
     [GoVal.varr [GoVal.varr [GoVal.vf64 0, GoVal.vf64 0],
        GoVal.varr [GoVal.vf64 4, GoVal.vf64 0],
        GoVal.varr [GoVal.vf64 4, GoVal.vf64 4],
        GoVal.varr [GoVal.vf64 0, GoVal.vf64 0]],
      GoVal.varr [GoVal.varr [GoVal.vf64 1, GoVal.vf64 1],
        GoVal.varr [GoVal.vf64 2, GoVal.vf64 1],
        GoVal.varr [GoVal.vf64 1, GoVal.vf64 1]]])]

/-- The feature `c2Geom` normalizes to. -/
def c2Feat : fgbFeature :=
  ⟨fgbGeomPolygon, [0, 0, 4, 0, 4, 4, 0, 0, 1, 1, 2, 1, 1, 1], [4, 7], []⟩

/-- Witness for C2: the invariant theorem applies to a concrete
two-ring Polygon feature (`ends = [4, 7]`, 14 interleaved doubles). -/
theorem ends_invariant_c2_witness :
    (parseGeometry c2Geom mkFeature = .ok c2Feat
      ∧ c2Feat.XY.length < 8589934592 ∧ c2Feat.Ends ≠ [])
    ∧ (c2Feat.Ends.getLast?.getD 0 * 2 = c2Feat.XY.length
      ∧ List.Chain' (· ≤ ·) c2Feat.Ends) :=
  ⟨⟨by rfl, by decide, by decide⟩,
    (ends_invariant_c2 c2Geom c2Feat (by rfl) (by decide)).1 (by decide)⟩

/-- **C8.** For every MultiPolygon feature, polygons are iterated in
input order and rings within each polygon in input order, each ring
appended to one shared interleaved XY buffer and one cumulative vertex
count appended to one shared Ends buffer after each ring, exactly as for
a single Polygon: the parsed feature's `(XY, Ends)` equals
`flattenRings` — the single-Polygon flattening — applied to the plain
concatenation of all polygons' ring lists, so a ring boundary between
two polygons is encoded identically to a ring boundary within one
polygon and no per-polygon marker exists in the output. -/
theorem multipolygon_flatten_c8 (geom : List (String × GoVal)) (feat : fgbFeature)
    (ht : geomTypeString geom = "MultiPolygon")
    (hOk : parseGeometry geom mkFeature = .ok feat) :
    ∃ polys, toCoordPolygons (mapGet geom "coordinates") = .ok polys
      ∧ feat.GeomType = fgbGeomMultiPolygon
      ∧ (feat.XY, feat.Ends) = flattenRings polys.flatten := by
  unfold parseGeometry at hOk
  dsimp only at hOk
  rw [ht] at hOk
  simp only [reduceIte, String.reduceEq] at hOk
  cases hp : toCoordPolygons (mapGet geom "coordinates") with
  | error e => rw [hp] at hOk; exact absurd hOk (by simp)
  | ok polys =>
    rw [hp] at hOk
    simp only [Except.ok.injEq] at hOk
    refine ⟨polys, rfl, ?_, ?_⟩
    · rw [← hOk]
    · rw [← hOk, multiPolygonFlatten_eq]

/-- The concrete MultiPolygon document used by the C8 witness: two
polygons, the first with two rings, the second with one. -/
def c8Geom : List (String × GoVal) :=
  [("type", GoVal.vstr "MultiPolygon"),
   ("coordinates", GoVal.varr
     [GoVal.varr
       [GoVal.varr [GoVal.varr [GoVal.vf64 0, GoVal.vf64 0],
          GoVal.varr [GoVal.vf64 4, GoVal.vf64 0],
          GoVal.varr [GoVal.vf64 0, GoVal.vf64 4]],
        GoVal.varr [GoVal.varr [GoVal.vf64 1, GoVal.vf64 1],
          GoVal.varr [GoVal.vf64 2, GoVal.vf64 1],
          GoVal.varr [GoVal.vf64 1, GoVal.vf64 2]]],
      GoVal.varr
       [GoVal.varr [GoVal.varr [GoVal.vf64 7, GoVal.vf64 7],
          GoVal.varr [GoVal.vf64 8, GoVal.vf64 7],
          GoVal.varr [GoVal.vf64 7, GoVal.vf64 8]]]])]

/-- The feature `c8Geom` normalizes to: one shared xy/ends stream,
`ends = [3, 6, 9]` with no marker at the polygon boundary. -/
def c8Feat : fgbFeature :=
  ⟨fgbGeomMultiPolygon,
   [0, 0, 4, 0, 0, 4, 1, 1, 2, 1, 1, 2, 7, 7, 8, 7, 7, 8], [3, 6, 9], []⟩

/-- Witness for C8: the flattening theorem applies to a concrete
two-polygon MultiPolygon. -/
theorem multipolygon_flatten_c8_witness :
    (geomTypeString c8Geom = "MultiPolygon"
      ∧ parseGeometry c8Geom mkFeature = .ok c8Feat)
    ∧ ∃ polys, toCoordPolygons (mapGet c8Geom "coordinates") = .ok polys
      ∧ c8Feat.GeomType = fgbGeomMultiPolygon
      ∧ (c8Feat.XY, c8Feat.Ends) = flattenRings polys.flatten :=
  ⟨⟨by rfl, by rfl⟩, multipolygon_flatten_c8 c8Geom c8Feat (by rfl) (by rfl)⟩

/-- **C4.** For both entry points — the live-query export and the
merged-GeoJSON export — if zero features survive normalization the call
returns a fatal "no data" error and no output bytes (the error return
carries no buffer; in Go the byte slice is nil), never a partially valid
container.  (The merged path reports one of its two "no data" messages
depending on whether the input collection was empty or every feature was
rejected.) -/
theorem no_data_error_c4 (docs : List (Option (List (String × GoVal))))
    (pwaCode layerName : String) (fc : geojsonFC) (outputName : String)
    (hlive : (exportCollect docs).features = [])
    (hmerged : (mergedCollect fc).features = []) :
    ExportAsFlatGeobuf docs pwaCode layerName =
      .error ("no features found for " ++ pwaCode ++ "_" ++ layerName)
    ∧ (ExportMergedAsFlatGeobuf fc outputName =
        .error "no features in merged GeoJSON"
      ∨ ExportMergedAsFlatGeobuf fc outputName =
        .error "no valid features after parsing") := by
  constructor
  · unfold ExportAsFlatGeobuf
    dsimp only
    rw [hlive]
    rfl
  · unfold ExportMergedAsFlatGeobuf
    by_cases hfc : fc.Features.length = 0
    · rw [if_pos hfc]
      exact Or.inl rfl
    · rw [if_neg hfc]
      dsimp only
      rw [hmerged]
      exact Or.inr rfl

/-- A cursor record whose geometry has an unsupported type: it survives
nothing. -/
def c4BadDoc : List (String × GoVal) :=
  [("geometry", GoVal.vdoc [("type", GoVal.vstr "Circle"),
     ("coordinates", GoVal.varr [GoVal.vf64 0, GoVal.vf64 0])])]

/-- A merged FeatureCollection with one geometry-less feature: zero
features survive. -/
def c4BadFC : geojsonFC := ⟨"FeatureCollection", [⟨"Feature", ⟨"", GoVal.vnull⟩, []⟩]⟩

/-- Witness for C4: with one rejected record on each path, both entry
points return the fatal "no data" error. -/
theorem no_data_error_c4_witness :
    ((exportCollect [some c4BadDoc]).features = []
      ∧ (mergedCollect c4BadFC).features = [])
    ∧ (ExportAsFlatGeobuf [some c4BadDoc] "1071" "pipe" =
        .error "no features found for 1071_pipe"
      ∧ (ExportMergedAsFlatGeobuf c4BadFC "merged" =
          .error "no features in merged GeoJSON"
        ∨ ExportMergedAsFlatGeobuf c4BadFC "merged" =
          .error "no valid features after parsing")) :=
  ⟨⟨by rfl, by rfl⟩,
    no_data_error_c4 [some c4BadDoc] "1071" "pipe" c4BadFC "merged"
      (by rfl) (by rfl)⟩

/-- A merged FeatureCollection with one Point feature carrying the
numeric property `n = 5` (a JSON number, hence `float64`). -/
def c9FC : geojsonFC :=
  ⟨"FeatureCollection",
   [⟨"Feature", ⟨"Point", GoVal.varr [GoVal.vf64 1, GoVal.vf64 2]⟩,
     [("n", GoVal.vf64 5)]⟩]⟩

/-- A cursor record with one Point feature carrying the BSON `int64`
property `n = 5`. -/
def c9Doc : List (String × GoVal) :=
  [("geometry", GoVal.vdoc [("type", GoVal.vstr "Point"),
     ("coordinates", GoVal.varr [GoVal.vf64 1, GoVal.vf64 2])]),
   ("properties", GoVal.vdoc [("n", GoVal.vi64 5)])]

/-- **C9.** In the merged-GeoJSON entry point, a JSON numeric property
value that is integral and lies within `[-2147483648, 2147483647]` is
stored as a 64-bit integer (`pint`) and, on first occurrence of its
column name, fixes the column type to Int; any other JSON number
(non-integral, or integral but outside the int32 range) is stored as a
float64 and fixes the column type to Double.  The live-query path maps
BSON `int32` to Int and BSON `int64` to Long, so the same numeric value
can be assigned a different column type than in the merged path — as the
last two conjuncts show for the value 5 run through both full
pipelines. -/
theorem numeric_column_types_c9 (q : ℚ) (n : Int)
    (hint : ratTruncQ q = q ∧ (-2147483648 : ℚ) ≤ q ∧ q ≤ 2147483647) :
    mergedPropSwitch (.vf64 q) = some (.pint (ratTruncInt q), fgbColInt)
    ∧ (∀ r : ℚ, ¬(ratTruncQ r = r ∧ (-2147483648 : ℚ) ≤ r ∧ r ≤ 2147483647) →
        mergedPropSwitch (.vf64 r) = some (.pf64 r, fgbColDouble))
    ∧ livePropSwitch (.vi32 n) = some (.pint n, fgbColInt)
    ∧ livePropSwitch (.vi64 n) = some (.pint n, fgbColLong)
    ∧ (mergedCollect c9FC).columnSet = [("n", fgbColInt)]
    ∧ (exportCollect [some c9Doc]).columnSet = [("n", fgbColLong)] := by
  refine ⟨?_, ?_, rfl, rfl, by rfl, by rfl⟩
  · simp only [mergedPropSwitch, if_pos hint]
  · intro r hr
    simp only [mergedPropSwitch, if_neg hr]

/-- Witness for C9: the classification theorem applied at the integral
in-range value 5 (and, through its second conjunct, at the non-integral
value 1/2). -/
theorem numeric_column_types_c9_witness :
    ((ratTruncQ 5 = (5 : ℚ) ∧ (-2147483648 : ℚ) ≤ 5 ∧ (5 : ℚ) ≤ 2147483647)
      ∧ mergedPropSwitch (.vf64 5) = some (.pint 5, fgbColInt)
      ∧ mergedPropSwitch (.vf64 (mkRat 1 2)) =
          some (.pf64 (mkRat 1 2), fgbColDouble))
    ∧ livePropSwitch (.vi32 7) = some (.pint 7, fgbColInt)
    ∧ livePropSwitch (.vi64 7) = some (.pint 7, fgbColLong) :=
  ⟨⟨by decide,
    by
      have h := numeric_column_types_c9 5 7 (by decide)
      refine ⟨by simpa using h.1, ?_⟩
      have h2 := h.2.1 (mkRat 1 2) (by decide)
      simpa using h2⟩,
   by rfl, by rfl⟩

/-! ## C10: components beyond x and y are read past, never rejected -/

/-- Drop every component beyond the first two of one coordinate tuple. -/
def truncTuple : GoVal → GoVal
  | .varr l => .varr (l.take 2)
  | v => v

/-- Tuple truncation one nesting level down (MultiPoint / LineString
coordinates). -/
def truncDepth1 : GoVal → GoVal
  | .varr l => .varr (l.map truncTuple)
  | v => v

/-- Tuple truncation two nesting levels down (MultiLineString / Polygon
coordinates). -/
def truncDepth2 : GoVal → GoVal
  | .varr l => .varr (l.map truncDepth1)
  | v => v

/-- Tuple truncation three nesting levels down (MultiPolygon
coordinates). -/
def truncDepth3 : GoVal → GoVal
  | .varr l => .varr (l.map truncDepth2)
  | v => v

/-- Truncate every coordinate tuple of a geometry's `coordinates` value
to its first two components, at the nesting depth of the given geometry
type. -/
def truncGeomCoords (t : String) (c : GoVal) : GoVal :=
  if t = "Point" then truncTuple c
  else if t = "MultiPoint" ∨ t = "LineString" then truncDepth1 c
  else if t = "MultiLineString" ∨ t = "Polygon" then truncDepth2 c
  else if t = "MultiPolygon" then truncDepth3 c
  else c

theorem toCoordPair_trunc (v : GoVal) :
    toCoordPair (truncTuple v) = toCoordPair v := by
  cases v <;> try rfl
  case varr l =>
    by_cases h : 2 ≤ l.length
    · have h2 : 2 ≤ (l.take 2).length := by simp; omega
      simp only [truncTuple, toCoordPair, dif_pos h, dif_pos h2]
      congr 1
      have e0 : (l.take 2).get ⟨0, by omega⟩ = l.get ⟨0, by omega⟩ := by
        simp [List.getElem_take]
      have e1 : (l.take 2).get ⟨1, by omega⟩ = l.get ⟨1, by omega⟩ := by
        simp [List.getElem_take]
      rw [e0, e1]
    · have h2 : ¬ 2 ≤ (l.take 2).length := by simp; omega
      simp only [truncTuple, toCoordPair, dif_neg h, dif_neg h2]

theorem coordArrayStep_trunc (xy : List ℚ) (item : GoVal) :
    coordArrayStep xy (truncTuple item) = coordArrayStep xy item := by
  cases item <;> try rfl
  case varr l =>
    by_cases h : 2 ≤ l.length
    · have h2 : 2 ≤ (l.take 2).length := by simp; omega
      simp only [truncTuple, coordArrayStep, dif_pos h, dif_pos h2]
      have e0 : (l.take 2).get ⟨0, by omega⟩ = l.get ⟨0, by omega⟩ := by
        simp [List.getElem_take]
      have e1 : (l.take 2).get ⟨1, by omega⟩ = l.get ⟨1, by omega⟩ := by
        simp [List.getElem_take]
      rw [e0, e1]
    · have h2 : ¬ 2 ≤ (l.take 2).length := by simp; omega
      simp only [truncTuple, coordArrayStep, dif_neg h, dif_neg h2]

theorem toCoordArray_trunc (v : GoVal) :
    toCoordArray (truncDepth1 v) = toCoordArray v := by
  cases v <;> try rfl
  case varr l =>
    simp only [truncDepth1, toCoordArray, List.foldl_map]
    rw [List.foldl_ext _ coordArrayStep [] (fun a b _ => coordArrayStep_trunc a b)]

theorem ringPointStep_trunc (coords : List (List ℚ)) (ptRaw : GoVal) :
    ringPointStep coords (truncTuple ptRaw) = ringPointStep coords ptRaw := by
  cases ptRaw <;> try rfl
  case varr l =>
    by_cases h : 2 ≤ l.length
    · have h2 : 2 ≤ (l.take 2).length := by simp; omega
      simp only [truncTuple, ringPointStep, dif_pos h, dif_pos h2]
      have e0 : (l.take 2).get ⟨0, by omega⟩ = l.get ⟨0, by omega⟩ := by
        simp [List.getElem_take]
      have e1 : (l.take 2).get ⟨1, by omega⟩ = l.get ⟨1, by omega⟩ := by
        simp [List.getElem_take]
      rw [e0, e1]
    · have h2 : ¬ 2 ≤ (l.take 2).length := by simp; omega
      simp only [truncTuple, ringPointStep, dif_neg h, dif_neg h2]

theorem ringStepOuter_trunc (rings : List (List (List ℚ))) (ringRaw : GoVal) :
    ringStepOuter rings (truncDepth1 ringRaw) = ringStepOuter rings ringRaw := by
  cases ringRaw <;> try rfl
  case varr l =>
    simp only [truncDepth1, ringStepOuter, List.foldl_map]
    rw [List.foldl_ext _ ringPointStep [] (fun a b _ => ringPointStep_trunc a b)]

theorem toCoordRings_trunc (v : GoVal) :
    toCoordRings (truncDepth2 v) = toCoordRings v := by
  cases v <;> try rfl
  case varr l =>
    simp only [truncDepth2, toCoordRings, List.foldl_map]
    rw [List.foldl_ext _ ringStepOuter [] (fun a b _ => ringStepOuter_trunc a b)]

theorem polygonStep_trunc (polys : List (List (List (List ℚ)))) (polyRaw : GoVal) :
    polygonStep polys (truncDepth2 polyRaw) = polygonStep polys polyRaw := by
  unfold polygonStep
  rw [toCoordRings_trunc]

theorem toCoordPolygons_trunc (v : GoVal) :
    toCoordPolygons (truncDepth3 v) = toCoordPolygons v := by
  cases v <;> try rfl
  case varr l =>
    simp only [truncDepth3, toCoordPolygons, List.foldl_map]
    rw [List.foldl_ext _ polygonStep [] (fun a b _ => polygonStep_trunc a b)]

/-- **C10.** For every geometry type, a coordinate tuple with more than
two components (for example a 3D `[x, y, z]` position) is accepted
rather than rejected: truncating every tuple of the `coordinates` value
to its first two components leaves the result of `parseGeometry`
unchanged, so components beyond x and y never reach the output and never
cause a feature to be skipped; and (second conjunct) any tuple with at
least two components is accepted by the pair reader, reading exactly the
first two components. -/
theorem extra_components_c10 (t : String) (c : GoVal) (l : List GoVal)
    (hl : 2 ≤ l.length) :
    parseGeometry [("type", GoVal.vstr t),
        ("coordinates", truncGeomCoords t c)] mkFeature
      = parseGeometry [("type", GoVal.vstr t), ("coordinates", c)] mkFeature
    ∧ toCoordPair (.varr l) =
        .ok [(toFloat64 (l.get ⟨0, by omega⟩)).1,
             (toFloat64 (l.get ⟨1, by omega⟩)).1] := by
  constructor
  · unfold parseGeometry
    dsimp only
    rw [show geomTypeString [("type", GoVal.vstr t),
          ("coordinates", truncGeomCoords t c)] = t from rfl,
        show geomTypeString [("type", GoVal.vstr t), ("coordinates", c)] = t from rfl,
        show mapGet [("type", GoVal.vstr t),
          ("coordinates", truncGeomCoords t c)] "coordinates" = truncGeomCoords t c from rfl,
        show mapGet [("type", GoVal.vstr t),
          ("coordinates", c)] "coordinates" = c from rfl]
    unfold truncGeomCoords
    by_cases h1 : t = "Point"
    · simp only [if_pos h1, toCoordPair_trunc]
    · simp only [if_neg h1]
      by_cases h2 : t = "MultiPoint"
      · simp only [if_pos h2, if_pos (Or.inl h2), toCoordArray_trunc]
      · by_cases h3 : t = "LineString"
        · simp only [if_neg h2, if_pos h3, if_pos (Or.inr h3), toCoordArray_trunc]
        · have hor : ¬(t = "MultiPoint" ∨ t = "LineString") := by tauto
          simp only [if_neg h2, if_neg h3, if_neg hor]
          by_cases h4 : t = "MultiLineString"
          · simp only [if_pos h4, if_pos (Or.inl h4), toCoordRings_trunc]
          · by_cases h5 : t = "Polygon"
            · simp only [if_neg h4, if_pos h5, if_pos (Or.inr h5), toCoordRings_trunc]
            · have hor2 : ¬(t = "MultiLineString" ∨ t = "Polygon") := by tauto
              simp only [if_neg h4, if_neg h5, if_neg hor2]
              by_cases h6 : t = "MultiPolygon"
              · simp only [if_pos h6, toCoordPolygons_trunc]
              · simp only [if_neg h6]
  · simp only [toCoordPair, dif_pos hl]

/-- Witness for C10: a 3D point `[7, 8, 9]` — the theorem applies, the
tuple is accepted, and only `x = 7`, `y = 8` are read. -/
theorem extra_components_c10_witness :
    2 ≤ ([GoVal.vf64 7, GoVal.vf64 8, GoVal.vf64 9] : List GoVal).length
    ∧ (parseGeometry [("type", GoVal.vstr "Point"),
         ("coordinates", truncGeomCoords "Point"
           (GoVal.varr [GoVal.vf64 7, GoVal.vf64 8, GoVal.vf64 9]))] mkFeature
        = parseGeometry [("type", GoVal.vstr "Point"),
            ("coordinates", GoVal.varr [GoVal.vf64 7, GoVal.vf64 8, GoVal.vf64 9])]
            mkFeature
      ∧ toCoordPair (.varr [GoVal.vf64 7, GoVal.vf64 8, GoVal.vf64 9]) =
          .ok [7, 8]) :=
  ⟨by decide,
    extra_components_c10 "Point" (GoVal.varr [GoVal.vf64 7, GoVal.vf64 8, GoVal.vf64 9])
      [GoVal.vf64 7, GoVal.vf64 8, GoVal.vf64 9] (by decide)⟩

/-! ## C6: structure of the encoded properties blob -/

/-- Whether a column type routes `encodeProperties` to the
length-prefixed string payload (the three string-like tags and the
default fallback branch). -/
def usesStringPayload (t : Nat) : Prop :=
  ¬(t = fgbColInt ∨ t = fgbColLong ∨ t = fgbColDouble ∨ t = fgbColFloat ∨
    t = fgbColBool)

instance (t : Nat) : Decidable (usesStringPayload t) := by
  unfold usesStringPayload
  infer_instance

/-- Side condition for exact `uint32` string length prefixes: the value
a feature stores for a string-payload column is shorter than `2^32`
bytes (always satisfied in practice). -/
def strLenOk (props : List (String × PropVal)) (c : fgbColumn) : Prop :=
  match propsGet props c.Name with
  | none => True
  | some v =>
    usesStringPayload c.«Type» → (utf8Bytes (goFmtP v)).length < 4294967296

instance (props : List (String × PropVal)) (c : fgbColumn) :
    Decidable (strLenOk props c) := by
  unfold strLenOk
  rcases propsGet props c.Name with _ | v
  · infer_instance
  · infer_instance

/-- The value bytes of one entry as a decoder sees them: the same as
`propPayload` except that a string-routed payload is the raw UTF-8 bytes
with the `uint32` length prefix already consumed. -/
def parsedPayload (colType : Nat) (val : PropVal) : List Nat :=
  if colType = fgbColString ∨ colType = fgbColDateTime ∨ colType = fgbColJSON then
    utf8Bytes (goFmtP val)
  else if colType = fgbColInt then
    i32le (match val with
      | .pint n => goInt32 n
      | .pf64 q => goInt32 (ratTruncInt q)
      | _ => 0)
  else if colType = fgbColLong then
    i64le (match val with
      | .pint n => n
      | .pf64 q => ratTruncInt q
      | _ => 0)
  else if colType = fgbColDouble ∨ colType = fgbColFloat then
    f64le (match val with
      | .pf64 q => q
      | .pint n => (n : ℚ)
      | _ => 0)
  else if colType = fgbColBool then
    [match val with | .pbool true => 1 | _ => 0]
  else
    utf8Bytes (goFmtP val)

theorem i32le_length (n : Int) : (i32le n).length = 4 := rfl

theorem i64le_length (n : Int) : (i64le n).length = 8 := rfl

theorem f64le_length (q : ℚ) : (f64le q).length = 8 := rfl

theorem readBytes_len (n : Nat) (l rest : List Nat) (h : l.length = n) :
    readBytes n (l ++ rest) = some (l, rest) := by
  subst h
  exact readBytes_exact l rest

theorem readPayload_propPayload (c : fgbColumn) (v : PropVal) (rest : List Nat)
    (hstr : usesStringPayload c.«Type» →
      (utf8Bytes (goFmtP v)).length < 4294967296) :
    readPayload c.«Type» (propPayload c.«Type» v ++ rest) =
      some (parsedPayload c.«Type» v, rest) := by
  unfold readPayload propPayload parsedPayload
  by_cases h1 : c.«Type» = fgbColString ∨ c.«Type» = fgbColDateTime ∨
      c.«Type» = fgbColJSON
  · have hlen : (utf8Bytes (goFmtP v)).length < 4294967296 := by
      refine hstr ?_
      unfold usesStringPayload
      rcases h1 with h | h | h <;> simp [h, fgbColString, fgbColDateTime,
        fgbColJSON, fgbColInt, fgbColLong, fgbColDouble, fgbColFloat, fgbColBool]
    simp only [if_pos h1, strPayload, List.append_assoc]
    rw [readU32_u32le _ _ hlen, Option.some_bind, readBytes_exact]
  · simp only [if_neg h1]
    by_cases h2 : c.«Type» = fgbColInt
    · simp only [if_pos h2]
      exact readBytes_len _ _ _ (i32le_length _)
    · simp only [if_neg h2]
      by_cases h3 : c.«Type» = fgbColLong
      · simp only [if_pos h3]
        exact readBytes_len _ _ _ (i64le_length _)
      · simp only [if_neg h3]
        by_cases h4 : c.«Type» = fgbColDouble ∨ c.«Type» = fgbColFloat
        · simp only [if_pos h4]
          exact readBytes_len _ _ _ (f64le_length _)
        · simp only [if_neg h4]
          by_cases h5 : c.«Type» = fgbColBool
          · simp only [if_pos h5]
            exact readBytes_len _ _ _ rfl
          · have hlen : (utf8Bytes (goFmtP v)).length < 4294967296 := by
              refine hstr ?_
              unfold usesStringPayload
              tauto
            simp only [if_neg h5, strPayload, List.append_assoc]
            rw [readU32_u32le _ _ hlen, Option.some_bind, readBytes_exact]

/-- The entry list a decoder recovers from `encodeProperties`' output
for the column suffix starting at absolute column index `i`: one
`(index, payload)` pair per column the feature has a (non-nil) value
for. -/
def presentEntriesFrom (props : List (String × PropVal)) :
    Nat → List fgbColumn → List (Nat × List Nat)
  | _, [] => []
  | i, c :: cs =>
    match propsGet props c.Name with
    | none => presentEntriesFrom props (i + 1) cs
    | some v => (i, parsedPayload c.«Type» v) :: presentEntriesFrom props (i + 1) cs

theorem presentEntriesFrom_indices (props : List (String × PropVal)) :
    ∀ (cs : List fgbColumn) (i : Nat),
      (presentEntriesFrom props i cs).map Prod.fst =
        ((cs.enumFrom i).filter
          (fun p => (propsGet props p.2.Name).isSome)).map Prod.fst := by
  intro cs
  induction cs with
  | nil => intro i; rfl
  | cons c cs ih =>
    intro i
    simp only [List.enumFrom_cons, List.filter_cons]
    cases hp : propsGet props c.Name with
    | none =>
      simp only [presentEntriesFrom, hp]
      rw [if_neg (by simp [hp])]
      exact ih (i + 1)
    | some v =>
      simp only [presentEntriesFrom, hp]
      rw [if_pos (by simp [hp])]
      simp only [List.map_cons]
      rw [ih (i + 1)]

theorem parse_encodePropsLoop (props : List (String × PropVal))
    (columns : List fgbColumn) (hcols : columns.length ≤ 65536)
    (hstr : ∀ c ∈ columns, strLenOk props c) :
    ∀ (cs : List fgbColumn) (i : Nat), columns.drop i = cs →
      ∀ fuel, cs.length ≤ fuel →
        parsePropEntries columns fuel (encodePropsLoop props i cs) =
          some (presentEntriesFrom props i cs) := by
  intro cs
  induction cs with
  | nil =>
    intro i _ fuel _
    cases fuel <;> rfl
  | cons c cs ih =>
    intro i hdrop fuel hfuel
    have hidx : columns[i]? = some c := by
      have h0 : (columns.drop i)[0]? = some c := by rw [hdrop]; simp
      rw [List.getElem?_drop] at h0
      simpa using h0
    have hilt : i < columns.length := by
      rcases List.getElem?_eq_some.mp hidx with ⟨h, _⟩
      exact h
    have hdrop' : columns.drop (i + 1) = cs := by
      rw [← List.drop_drop, hdrop]
      rfl
    have hcmem : c ∈ columns := by
      have : c ∈ columns.drop i := by
        rw [hdrop]
        exact List.mem_cons_self c cs
      exact List.mem_of_mem_drop this
    cases hp : propsGet props c.Name with
    | none =>
      simp only [encodePropsLoop, hp, List.nil_append, presentEntriesFrom]
      exact ih (i + 1) hdrop' fuel (by simp at hfuel ⊢; omega)
    | some v =>
      match fuel, hfuel with
      | fuel + 1, hfuel =>
        simp only [encodePropsLoop, hp, presentEntriesFrom, List.append_assoc]
        have hstream : (u16le i ++ (propPayload c.«Type» v ++
            encodePropsLoop props (i + 1) cs) : List Nat) =
            (i % 256) :: (i / 256 % 256) ::
              (propPayload c.«Type» v ++ encodePropsLoop props (i + 1) cs) := by
          simp [u16le]
        rw [hstream]
        show ((readU16 _).bind _ : Option (List (Nat × List Nat))) = _
        rw [show readU16 ((i % 256) :: (i / 256 % 256) ::
            (propPayload c.«Type» v ++ encodePropsLoop props (i + 1) cs)) =
            some (i, propPayload c.«Type» v ++ encodePropsLoop props (i + 1) cs) by
          simp only [readU16]
          congr 2
          omega]
        rw [Option.some_bind, hidx, Option.some_bind,
          readPayload_propPayload c v _ (fun hu => by
            have hs := hstr c hcmem
            unfold strLenOk at hs
            rw [hp] at hs
            exact hs hu),
          Option.some_bind, ih (i + 1) hdrop' fuel (by simp at hfuel ⊢; omega)]
        rfl

/-- **C6.** For every feature, the encoded properties blob is a sequence
of entries in column order restricted to columns for which the feature
has a non-null value: decoding the blob against the schema succeeds and
yields exactly one entry per present column (conjunct 1, with the
entry list characterized by conjunct 2); every 2-byte little-endian
column index appearing in the stream is strictly less than the number of
columns (conjunct 4); no column index appears twice for the same feature
(conjunct 3, the indices are strictly increasing); and a null or absent
property value produces no entry at all — absence of the index is the
null representation (conjunct 5).  Side conditions: at most `2^16`
columns (the `uint16` index write is exact) and string values shorter
than `2^32` bytes (the `uint32` length prefix is exact). -/
theorem properties_blob_c6 (props : List (String × PropVal))
    (columns : List fgbColumn) (hcols : columns.length ≤ 65536)
    (hstr : ∀ c ∈ columns, strLenOk props c) :
    parsePropEntries columns columns.length (encodeProperties props columns) =
      some (presentEntriesFrom props 0 columns)
    ∧ (presentEntriesFrom props 0 columns).map Prod.fst =
        ((columns.enum.filter
          (fun p => (propsGet props p.2.Name).isSome)).map Prod.fst)
    ∧ List.Pairwise (· < ·) ((presentEntriesFrom props 0 columns).map Prod.fst)
    ∧ (∀ e ∈ presentEntriesFrom props 0 columns, e.1 < columns.length)
    ∧ (∀ i c, columns[i]? = some c → propsGet props c.Name = none →
        i ∉ (presentEntriesFrom props 0 columns).map Prod.fst) := by
  have hindices := presentEntriesFrom_indices props columns 0
  have hsub : List.Sublist
      (((columns.enumFrom 0).filter
        (fun p => (propsGet props p.2.Name).isSome)).map Prod.fst)
      ((columns.enumFrom 0).map Prod.fst) :=
    (List.filter_sublist _).map Prod.fst
  have hrange : (columns.enumFrom 0).map Prod.fst =
      List.range' 0 columns.length := List.enumFrom_map_fst 0 columns
  refine ⟨?_, hindices, ?_, ?_, ?_⟩
  · exact parse_encodePropsLoop props columns hcols hstr columns 0 rfl
      columns.length le_rfl
  · rw [hindices]
    refine List.Pairwise.sublist hsub ?_
    rw [hrange]
    exact List.pairwise_lt_range' 0 columns.length
  · intro e he
    have : e.1 ∈ (presentEntriesFrom props 0 columns).map Prod.fst :=
      List.mem_map_of_mem Prod.fst he
    rw [hindices] at this
    have := hsub.subset this
    rw [hrange] at this
    rcases List.mem_range'.mp this with ⟨j, hj, hje⟩
    omega
  · intro i c hic hnone hmem
    rw [hindices] at hmem
    rcases List.mem_map.mp hmem with ⟨⟨i', x⟩, hmemf, hfst⟩
    rcases List.mem_filter.mp hmemf with ⟨hmeme, hpred⟩
    simp only at hfst
    subst hfst
    have := (List.mk_mem_enumFrom_iff_le_and_getElem?_sub).mp hmeme
    simp only [Nat.sub_zero] at this
    rw [hic] at this
    have hx : x = c := by
      have h2 := this.2
      simp at h2
      exact h2.symm
    subst hx
    rw [hnone] at hpred
    simp at hpred

/-- The concrete schema used by the C6 witness. -/
def c6Cols : List fgbColumn :=
  [⟨"name", fgbColString⟩, ⟨"count", fgbColInt⟩, ⟨"note", fgbColString⟩]

/-- The concrete property bag used by the C6 witness: `count` and `name`
present, `note` nil. -/
def c6Props : List (String × PropVal) :=
  [("count", PropVal.pint 5), ("name", PropVal.pstr "abc"),
   ("note", PropVal.pnull)]

/-- Witness for C6: the blob theorem applies to a concrete three-column
schema; the nil `note` value yields no entry, the other two columns
yield exactly the entries `(0, "abc")` and `(1, int32 5)`. -/
theorem properties_blob_c6_witness :
    (c6Cols.length ≤ 65536 ∧ ∀ c ∈ c6Cols, strLenOk c6Props c)
    ∧ parsePropEntries c6Cols c6Cols.length (encodeProperties c6Props c6Cols) =
        some (presentEntriesFrom c6Props 0 c6Cols)
    ∧ presentEntriesFrom c6Props 0 c6Cols =
        [(0, [97, 98, 99]), (1, [5, 0, 0, 0])] :=
  ⟨⟨by decide, by decide⟩,
    (properties_blob_c6 c6Props c6Cols (by decide) (by decide)).1,
    by decide⟩

/-! ## C5: column types are fixed first-wins; the mismatch fallback -/

/-- A discovery accumulator `(props, columnOrder, columnSet)`. -/
abbrev DiscAcc := List (String × PropVal) × List String × List (String × Nat)

theorem propDiscoverStep_extends (sw : GoVal → Option (PropVal × Nat))
    (acc : DiscAcc) (kv : String × GoVal) :
    ∃ extO extS, (propDiscoverStep sw acc kv).2.1 = acc.2.1 ++ extO ∧
      (propDiscoverStep sw acc kv).2.2 = acc.2.2 ++ extS := by
  unfold propDiscoverStep
  cases hsw : sw kv.2 with
  | none => exact ⟨[], [], by simp, by simp⟩
  | some pv =>
    obtain ⟨pv, t⟩ := pv
    dsimp only
    by_cases hseen : ((acc.2.2.find? (fun p => p.1 = kv.1))).isSome
    · rw [if_pos hseen]
      exact ⟨[], [], by simp, by simp⟩
    · rw [if_neg hseen]
      exact ⟨[kv.1], [(kv.1, t)], rfl, rfl⟩

theorem mergedPropStep_extends (acc : DiscAcc) (kv : String × GoVal) :
    ∃ extO extS, (mergedPropStep acc kv).2.1 = acc.2.1 ++ extO ∧
      (mergedPropStep acc kv).2.2 = acc.2.2 ++ extS := by
  unfold mergedPropStep
  rcases kv with ⟨k, v⟩
  rcases v with s | n | n | q | b | ms | l | m | _ | r
  case vnull => exact ⟨[], [], by simp, by simp⟩
  all_goals exact propDiscoverStep_extends mergedPropSwitch acc (k, _)

theorem foldl_disc_extends {β : Type} (step : DiscAcc → β → DiscAcc)
    (hstep : ∀ acc b, ∃ extO extS, (step acc b).2.1 = acc.2.1 ++ extO ∧
      (step acc b).2.2 = acc.2.2 ++ extS) (l : List β) :
    ∀ acc : DiscAcc, ∃ extO extS, (l.foldl step acc).2.1 = acc.2.1 ++ extO ∧
      (l.foldl step acc).2.2 = acc.2.2 ++ extS := by
  induction l with
  | nil => intro acc; exact ⟨[], [], by simp, by simp⟩
  | cons b l ih =>
    intro acc
    rcases hstep acc b with ⟨eO, eS, heO, heS⟩
    rcases ih (step acc b) with ⟨extO, extS, hO, hS⟩
    refine ⟨eO ++ extO, eS ++ extS, ?_, ?_⟩
    · rw [List.foldl_cons, hO, heO, List.append_assoc]
    · rw [List.foldl_cons, hS, heS, List.append_assoc]

theorem processDoc_extends (st : ExportState)
    (doc : Option (List (String × GoVal))) :
    ∃ extO extS, (processDoc st doc).columnOrder = st.columnOrder ++ extO ∧
      (processDoc st doc).columnSet = st.columnSet ++ extS := by
  cases doc with
  | none => exact ⟨[], [], by simp [processDoc], by simp [processDoc]⟩
  | some d =>
    cases hg : mapGet d "geometry" with
    | vdoc geomMap =>
      cases hpg : parseGeometry geomMap mkFeature with
      | error e => refine ⟨[], [], ?_, ?_⟩ <;> simp [processDoc, hg, hpg]
      | ok feat =>
        cases hpp : mapGet d "properties" with
        | vdoc props =>
          rcases foldl_disc_extends (propDiscoverStep livePropSwitch)
            (propDiscoverStep_extends livePropSwitch) props
            (feat.Props, st.columnOrder, st.columnSet) with ⟨extO, extS, hO, hS⟩
          refine ⟨extO, extS, ?_, ?_⟩
          · simp only [processDoc, hg, hpg, hpp]
            simpa using hO
          · simp only [processDoc, hg, hpg, hpp]
            simpa using hS
        | vstr s => refine ⟨[], [], ?_, ?_⟩ <;> simp [processDoc, hg, hpg, hpp]
        | vi32 n => refine ⟨[], [], ?_, ?_⟩ <;> simp [processDoc, hg, hpg, hpp]
        | vi64 n => refine ⟨[], [], ?_, ?_⟩ <;> simp [processDoc, hg, hpg, hpp]
        | vf64 q => refine ⟨[], [], ?_, ?_⟩ <;> simp [processDoc, hg, hpg, hpp]
        | vbool b => refine ⟨[], [], ?_, ?_⟩ <;> simp [processDoc, hg, hpg, hpp]
        | vdt ms => refine ⟨[], [], ?_, ?_⟩ <;> simp [processDoc, hg, hpg, hpp]
        | varr l => refine ⟨[], [], ?_, ?_⟩ <;> simp [processDoc, hg, hpg, hpp]
        | vnull => refine ⟨[], [], ?_, ?_⟩ <;> simp [processDoc, hg, hpg, hpp]
        | vother r => refine ⟨[], [], ?_, ?_⟩ <;> simp [processDoc, hg, hpg, hpp]
    | vstr s => refine ⟨[], [], ?_, ?_⟩ <;> simp [processDoc, hg]
    | vi32 n => refine ⟨[], [], ?_, ?_⟩ <;> simp [processDoc, hg]
    | vi64 n => refine ⟨[], [], ?_, ?_⟩ <;> simp [processDoc, hg]
    | vf64 q => refine ⟨[], [], ?_, ?_⟩ <;> simp [processDoc, hg]
    | vbool b => refine ⟨[], [], ?_, ?_⟩ <;> simp [processDoc, hg]
    | vdt ms => refine ⟨[], [], ?_, ?_⟩ <;> simp [processDoc, hg]
    | varr l => refine ⟨[], [], ?_, ?_⟩ <;> simp [processDoc, hg]
    | vnull => refine ⟨[], [], ?_, ?_⟩ <;> simp [processDoc, hg]
    | vother r => refine ⟨[], [], ?_, ?_⟩ <;> simp [processDoc, hg]

theorem exportCollect_append (docs more : List (Option (List (String × GoVal)))) :
    exportCollect (docs ++ more) = more.foldl processDoc (exportCollect docs) := by
  simp [exportCollect, List.foldl_append]

theorem foldl_processDoc_extends (more : List (Option (List (String × GoVal)))) :
    ∀ st : ExportState, ∃ extS,
      (more.foldl processDoc st).columnSet = st.columnSet ++ extS := by
  induction more with
  | nil => intro st; exact ⟨[], by simp⟩
  | cons d more ih =>
    intro st
    rcases processDoc_extends st d with ⟨_, eS, _, heS⟩
    rcases ih (processDoc st d) with ⟨extS, hS⟩
    exact ⟨eS ++ extS, by rw [List.foldl_cons, hS, heS, List.append_assoc]⟩

/-- The mismatched-value fallback rule as the amended claim words it:
for string/datetime (and JSON) columns any value is stringified; for an
Int column a numeric value is converted (truncated toward zero and
narrowed to 32 bits) while a non-numeric value encodes as zero; for a
Long column likewise with 64 bits; for a Double (or Float) column a
numeric value is converted to a double while a non-numeric value
encodes as zero; for a Bool column a non-bool value encodes as the
single byte `0x00`. -/
def specFallbackPayload (t : Nat) (v : PropVal) : List Nat :=
  if t = fgbColString ∨ t = fgbColDateTime ∨ t = fgbColJSON then
    strPayload (goFmtP v)
  else if t = fgbColInt then
    match v with
    | .pint n => i32le (goInt32 n)
    | .pf64 q => i32le (goInt32 (ratTruncInt q))
    | _ => i32le 0
  else if t = fgbColLong then
    match v with
    | .pint n => i64le n
    | .pf64 q => i64le (ratTruncInt q)
    | _ => i64le 0
  else if t = fgbColDouble ∨ t = fgbColFloat then
    match v with
    | .pf64 q => f64le q
    | .pint n => f64le (n : ℚ)
    | _ => f64le 0
  else if t = fgbColBool then
    match v with
    | .pbool b => [if b then 1 else 0]
    | _ => [0]
  else strPayload (goFmtP v)

/-- The two cursor records of scenario C: the first fixes column `size`
as Int from a BSON `int32` 50; the second supplies the `float64` 7.5
for the same column. -/
def c5Docs : List (Option (List (String × GoVal))) :=
  [some [("geometry", GoVal.vdoc [("type", GoVal.vstr "Point"),
      ("coordinates", GoVal.varr [GoVal.vf64 1, GoVal.vf64 2])]),
    ("properties", GoVal.vdoc [("size", GoVal.vi32 50)])],
   some [("geometry", GoVal.vdoc [("type", GoVal.vstr "Point"),
      ("coordinates", GoVal.varr [GoVal.vf64 3, GoVal.vf64 4])]),
    ("properties", GoVal.vdoc [("size", GoVal.vf64 (mkRat 15 2))])]]

/-- **C5 counterexample.** The claim says a later feature's mismatched
value in an int column is encoded as *a zero value*.  On the concrete
scenario-C input `c5Docs` the column `size` is indeed fixed to Int by
the first feature, but the second feature's `float64` value 7.5 is
encoded as the truncated `int32` 7 — not zero — so the claimed
zero-fallback for int columns is false. -/
theorem column_type_fallback_c5_counterexample :
    finalColumns (exportCollect c5Docs) = [⟨"size", fgbColInt⟩]
    ∧ ((exportCollect c5Docs).features.map
        (fun f => encodeProperties f.Props (finalColumns (exportCollect c5Docs))))
      = [u16le 0 ++ i32le 50, u16le 0 ++ i32le 7]
    ∧ u16le 0 ++ i32le 7 ≠ u16le 0 ++ i32le 0 := by
  refine ⟨by decide, by decide, by decide⟩

/-- **C5 (amended).** For every feature set and every column name, the
column's type is fixed by the first feature that defines that name:
once a column is registered in `columnSet`, processing any further
records never changes its entry (first conjunct).  A later feature's
mismatched value is encoded under the fixed column type by the actual
fallback rule (second conjunct, `specFallbackPayload`): stringified for
string/datetime columns; for int/long/double columns a value of the
*other numeric type* is converted numerically (truncated toward zero
and, for Int, narrowed to 32 bits) while a non-numeric value encodes as
zero; a non-bool value in a bool column encodes as `0x00`. -/
theorem column_type_fallback_c5 (docs more : List (Option (List (String × GoVal))))
    (name : String)
    (h : (((exportCollect docs).columnSet.find? (fun p => p.1 = name))).isSome) :
    (exportCollect (docs ++ more)).columnSet.find? (fun p => p.1 = name) =
      (exportCollect docs).columnSet.find? (fun p => p.1 = name)
    ∧ ∀ t v, propPayload t v = specFallbackPayload t v := by
  constructor
  · rw [exportCollect_append]
    rcases foldl_processDoc_extends more (exportCollect docs) with ⟨extS, hS⟩
    rw [hS, List.find?_append]
    rcases hfind : (exportCollect docs).columnSet.find? (fun p => p.1 = name) with _ | p
    · rw [hfind] at h
      simp at h
    · rw [hfind]
      rfl
  · intro t v
    unfold propPayload specFallbackPayload
    split_ifs <;> rcases v with s | n | q | b | _ <;> try rfl
    all_goals cases b <;> rfl

/-- Witness for C5 (amended): the `size` column fixed by `c5Docs` keeps
its Int entry after one more record arrives, and the fallback rule
instance for the 7.5 value is the truncated 7. -/
theorem column_type_fallback_c5_witness :
    ((exportCollect c5Docs).columnSet.find?
        (fun p => p.1 = "size")).isSome = true
    ∧ (exportCollect (c5Docs ++ [some [("geometry",
          GoVal.vdoc [("type", GoVal.vstr "Point"),
            ("coordinates", GoVal.varr [GoVal.vf64 0, GoVal.vf64 0])]),
          ("properties", GoVal.vdoc [("size", GoVal.vstr "50mm")])]])).columnSet.find?
        (fun p => p.1 = "size") =
      (exportCollect c5Docs).columnSet.find? (fun p => p.1 = "size")
    ∧ propPayload fgbColInt (PropVal.pf64 (mkRat 15 2)) =
        specFallbackPayload fgbColInt (PropVal.pf64 (mkRat 15 2)) :=
  ⟨by decide,
    (column_type_fallback_c5 c5Docs _ "size" (by decide)).1,
    (column_type_fallback_c5 c5Docs [] "size" (by decide)).2 fgbColInt
      (PropVal.pf64 (mkRat 15 2))⟩

/-! ## C3: determinism and the map-iteration-order dependence -/

/-- The supported property keys of one record's property list, in
iteration order (keys whose values the live-path switch does not skip). -/
def supportedKeys (sw : GoVal → Option (PropVal × Nat))
    (props : List (String × GoVal)) : List String :=
  (props.filter (fun kv => (sw kv.2).isSome)).map Prod.fst

/-- The raw property lists of the records that survive normalization,
in encounter order (a record with a non-document `properties` field
contributes an empty list, as ranging over a nil map does). -/
def survivorPropLists (docs : List (Option (List (String × GoVal)))) :
    List (List (String × GoVal)) :=
  docs.filterMap (fun doc =>
    match doc with
    | none => none
    | some d =>
      match mapGet d "geometry" with
      | .vdoc geomMap =>
        (match parseGeometry geomMap mkFeature with
         | .ok _ =>
           some (match mapGet d "properties" with
                 | .vdoc props => props
                 | _ => [])
         | .error _ => none)
      | _ => none)

/-- First-seen deduplication relative to an already-seen key list: the
order in which a sequential scan registers new keys. -/
def addNewKeys (seen : List String) : List String → List String
  | [] => []
  | k :: ks =>
    if k ∈ seen then addNewKeys seen ks
    else k :: addNewKeys (seen ++ [k]) ks

theorem addNewKeys_append (l1 : List String) :
    ∀ (seen : List String) (l2 : List String),
      addNewKeys seen (l1 ++ l2) =
        addNewKeys seen l1 ++ addNewKeys (seen ++ addNewKeys seen l1) l2 := by
  induction l1 with
  | nil => intro seen l2; simp [addNewKeys]
  | cons k l1 ih =>
    intro seen l2
    by_cases hk : k ∈ seen
    · simp only [List.cons_append, addNewKeys, if_pos hk]
      exact ih seen l2
    · simp only [List.cons_append, addNewKeys, if_neg hk, List.append_eq]
      rw [ih (seen ++ [k]) l2]
      simp [List.append_assoc]

theorem discover_keys (sw : GoVal → Option (PropVal × Nat))
    (kvs : List (String × GoVal)) :
    ∀ acc : DiscAcc, acc.2.2.map Prod.fst = acc.2.1 →
      (kvs.foldl (propDiscoverStep sw) acc).2.1 =
        acc.2.1 ++ addNewKeys acc.2.1 (supportedKeys sw kvs)
      ∧ (kvs.foldl (propDiscoverStep sw) acc).2.2.map Prod.fst =
        (kvs.foldl (propDiscoverStep sw) acc).2.1 := by
  induction kvs with
  | nil => intro acc hinv; exact ⟨by simp [supportedKeys, addNewKeys], hinv⟩
  | cons kv kvs ih =>
    intro acc hinv
    rw [List.foldl_cons]
    have hseen_iff : ((acc.2.2.find? (fun p => p.1 = kv.1))).isSome ↔
        kv.1 ∈ acc.2.1 := by
      rw [List.find?_isSome]
      constructor
      · rintro ⟨p, hp, hpk⟩
        simp at hpk
        rw [← hinv]
        exact hpk ▸ List.mem_map_of_mem Prod.fst hp
      · intro hk
        rw [← hinv] at hk
        rcases List.mem_map.mp hk with ⟨p, hp, hpk⟩
        exact ⟨p, hp, by simp [hpk]⟩
    cases hsw : sw kv.2 with
    | none =>
      have hstep : propDiscoverStep sw acc kv = acc := by
        unfold propDiscoverStep
        rw [hsw]
      have hkeys : supportedKeys sw (kv :: kvs) = supportedKeys sw kvs := by
        simp [supportedKeys, List.filter_cons, hsw]
      rw [hstep, hkeys]
      exact ih acc hinv
    | some pv =>
      obtain ⟨pv, t⟩ := pv
      have hkeys : supportedKeys sw (kv :: kvs) =
          kv.1 :: supportedKeys sw kvs := by
        simp [supportedKeys, List.filter_cons, hsw]
      rw [hkeys]
      by_cases hk : kv.1 ∈ acc.2.1
      · have hstep : propDiscoverStep sw acc kv =
            (mapPut acc.1 kv.1 pv, acc.2.1, acc.2.2) := by
          unfold propDiscoverStep
          rw [hsw]
          dsimp only
          rw [if_pos (hseen_iff.mpr hk)]
        rw [hstep]
        have := ih (mapPut acc.1 kv.1 pv, acc.2.1, acc.2.2) hinv
        simp only [addNewKeys, if_pos hk]
        exact this
      · have hstep : propDiscoverStep sw acc kv =
            (mapPut acc.1 kv.1 pv, acc.2.1 ++ [kv.1], acc.2.2 ++ [(kv.1, t)]) := by
          unfold propDiscoverStep
          rw [hsw]
          dsimp only
          rw [if_neg (by rw [hseen_iff]; exact hk)]
        rw [hstep]
        have hinv' : ((mapPut acc.1 kv.1 pv, acc.2.1 ++ [kv.1],
            acc.2.2 ++ [(kv.1, t)]) : DiscAcc).2.2.map Prod.fst =
            ((mapPut acc.1 kv.1 pv, acc.2.1 ++ [kv.1],
            acc.2.2 ++ [(kv.1, t)]) : DiscAcc).2.1 := by
          simp [hinv]
        have := ih _ hinv'
        simp only [addNewKeys, if_neg hk]
        refine ⟨?_, this.2⟩
        rw [this.1]
        simp [List.append_assoc]

theorem collect_order (docs : List (Option (List (String × GoVal)))) :
    ∀ st : ExportState, st.columnSet.map Prod.fst = st.columnOrder →
      (docs.foldl processDoc st).columnOrder =
        st.columnOrder ++ addNewKeys st.columnOrder
          (((survivorPropLists docs).map (supportedKeys livePropSwitch)).flatten)
      ∧ (docs.foldl processDoc st).columnSet.map Prod.fst =
        (docs.foldl processDoc st).columnOrder := by
  induction docs with
  | nil =>
    intro st hinv
    exact ⟨by simp [survivorPropLists, addNewKeys], hinv⟩
  | cons doc docs ih =>
    intro st hinv
    rw [List.foldl_cons]
    cases doc with
    | none =>
      have hskip : processDoc st none = st := rfl
      have hsur : survivorPropLists (none :: docs) = survivorPropLists docs := by
        simp [survivorPropLists]
      rw [hskip, hsur]
      exact ih st hinv
    | some d =>
      cases hg : mapGet d "geometry"
      case vdoc geomMap =>
        cases hpg : parseGeometry geomMap mkFeature with
        | error e =>
          have hskip : processDoc st (some d) = st := by
            simp [processDoc, hg, hpg]
          have hsur : survivorPropLists (some d :: docs) =
              survivorPropLists docs := by
            simp [survivorPropLists, hg, hpg]
          rw [hskip, hsur]
          exact ih st hinv
        | ok feat =>
          cases hpp : mapGet d "properties"
          case vdoc props =>
            have hdk := discover_keys livePropSwitch props
              (feat.Props, st.columnOrder, st.columnSet) hinv
            have hco : (processDoc st (some d)).columnOrder =
                (props.foldl (propDiscoverStep livePropSwitch)
                  (feat.Props, st.columnOrder, st.columnSet)).2.1 := by
              simp [processDoc, hg, hpg, hpp]
            have hcs : (processDoc st (some d)).columnSet =
                (props.foldl (propDiscoverStep livePropSwitch)
                  (feat.Props, st.columnOrder, st.columnSet)).2.2 := by
              simp [processDoc, hg, hpg, hpp]
            have hsur : survivorPropLists (some d :: docs) =
                props :: survivorPropLists docs := by
              simp [survivorPropLists, hg, hpg, hpp]
            have hih := ih (processDoc st (some d))
              (by rw [hcs, hco]; exact hdk.2)
            refine ⟨?_, hih.2⟩
            rw [hih.1, hco, hdk.1, hsur, List.map_cons, List.flatten_cons,
              addNewKeys_append]
            simp [List.append_assoc]
          all_goals
            have hco : (processDoc st (some d)).columnOrder =
                st.columnOrder := by
              simp [processDoc, hg, hpg, hpp]
          all_goals
            have hcs : (processDoc st (some d)).columnSet = st.columnSet := by
              simp [processDoc, hg, hpg, hpp]
          all_goals
            have hsur : survivorPropLists (some d :: docs) =
                [] :: survivorPropLists docs := by
              simp [survivorPropLists, hg, hpg, hpp]
          all_goals
            have hih := ih (processDoc st (some d))
              (by rw [hcs, hco]; exact hinv)
          all_goals refine ⟨?_, hih.2⟩
          all_goals
            rw [hih.1, hco, hsur, List.map_cons, List.flatten_cons]
          all_goals simp [supportedKeys]
      all_goals
        have hskip : processDoc st (some d) = st := by
          simp [processDoc, hg]
      all_goals
        have hsur : survivorPropLists (some d :: docs) =
            survivorPropLists docs := by
          simp [survivorPropLists, hg]
      all_goals rw [hskip, hsur]
      all_goals exact ih st hinv

/-- A one-Point cursor record with the given property-map iteration
order. -/
def c3Doc (props : List (String × GoVal)) : List (String × GoVal) :=
  [("geometry", GoVal.vdoc [("type", GoVal.vstr "Point"),
     ("coordinates", GoVal.varr [GoVal.vf64 1, GoVal.vf64 2])]),
   ("properties", GoVal.vdoc props)]

/-- One iteration order of the property bag `{a: "x", b: 5}`. -/
def c3Props1 : List (String × GoVal) := [("a", GoVal.vstr "x"), ("b", GoVal.vi32 5)]

/-- The other iteration order of the same property bag. -/
def c3Props2 : List (String × GoVal) := [("b", GoVal.vi32 5), ("a", GoVal.vstr "x")]

set_option maxRecDepth 40000 in
/-- **C3 counterexample.** Two runs of the export pipeline over
identical feature data with identical property bags need *not* yield
byte-identical output: the schema-discovery pass ranges over a Go map
(`for k, v := range props`), whose iteration order is unspecified and
randomized between runs.  `c3Props1` and `c3Props2` are the same
property bag — same key set (a permutation) and the same value at every
key — yet presenting them in the two orders makes the pipeline discover
the columns in different orders and return different byte buffers. -/
theorem determinism_c3_counterexample :
    ((c3Props1.map Prod.fst).Perm (c3Props2.map Prod.fst)
      ∧ mapGet c3Props1 "a" = mapGet c3Props2 "a"
      ∧ mapGet c3Props1 "b" = mapGet c3Props2 "b")
    ∧ (ExportAsFlatGeobuf [some (c3Doc c3Props1)] "p" "l").toOption ≠
        (ExportAsFlatGeobuf [some (c3Doc c3Props2)] "p" "l").toOption :=
  ⟨⟨by decide, rfl, rfl⟩, by decide⟩

/-- **C3 (amended).** The export pipeline is deterministic in its input
*including each property bag's iteration order*: it is a pure function
of the ordered record list with the column order fully characterized as
the first-seen order of supported property keys across the features
that survive normalization, in record order and per-record iteration
order.  Consequently two runs presenting the same bags in the same
iteration orders yield byte-identical output, but — as the
counterexample shows — different map iteration orders of the same bags
may change the column order and hence the bytes. -/
theorem determinism_c3 (docs : List (Option (List (String × GoVal)))) :
    (exportCollect docs).columnOrder =
      addNewKeys [] (((survivorPropLists docs).map
        (supportedKeys livePropSwitch)).flatten) := by
  have h := (collect_order docs initState rfl).1
  simpa [exportCollect, initState] using h

/-! ## C7: which malformations reject a feature, and skip semantics -/

/-- A cursor record the export loop rejects: a decode failure, a
missing/nil geometry, a non-document geometry, or a geometry
`parseGeometry` refuses. -/
def docRejected (doc : Option (List (String × GoVal))) : Prop :=
  match doc with
  | none => True
  | some d =>
    match mapGet d "geometry" with
    | .vdoc geomMap => ∃ e, parseGeometry geomMap mkFeature = .error e
    | _ => True

theorem processDoc_rejected (doc : Option (List (String × GoVal)))
    (hrej : docRejected doc) : ∀ st, processDoc st doc = st := by
  intro st
  cases doc with
  | none => rfl
  | some d =>
    unfold docRejected at hrej
    dsimp only at hrej
    cases hg : mapGet d "geometry"
    case vdoc geomMap =>
      rw [hg] at hrej
      rcases hrej with ⟨e, he⟩
      simp [processDoc, hg, he]
    all_goals simp [processDoc, hg]

/-- The record used by the C7 counterexample: a LineString whose first
coordinate tuple `[3]` is short/malformed. -/
def c7Doc : List (String × GoVal) :=
  [("geometry", GoVal.vdoc [("type", GoVal.vstr "LineString"),
     ("coordinates", GoVal.varr
       [GoVal.varr [GoVal.vf64 3], GoVal.varr [GoVal.vf64 1, GoVal.vf64 2]])])]

/-- **C7 counterexample.** The claim says malformed/short coordinate
tuples cause exactly that single feature to be rejected.  On the
concrete record `c7Doc` — a LineString containing the short tuple
`[3]` — the feature is *not* rejected: it survives normalization (the
short tuple is silently dropped, leaving `xy = [1, 2]`) and the export
succeeds instead of reporting zero surviving features. -/
theorem per_feature_skip_c7_counterexample :
    (exportCollect [some c7Doc]).features.map fgbFeature.XY = [[1, 2]]
    ∧ (exportCollect [some c7Doc]).features.length = 1
    ∧ (ExportAsFlatGeobuf [some c7Doc] "p" "l").toOption.isSome = true :=
  ⟨by decide, by decide, by decide⟩

/-- **C7 (amended).** An unrecognized geometry `type` string rejects
exactly that feature (conjunct 1); a rejected record — decode failure,
missing or non-document geometry, or a geometry `parseGeometry`
refuses, which includes an unrecognized type, a non-array coordinates
value and, for Point, a short/invalid tuple — is skipped while the
remaining records are still encoded, never aborting the whole encode or
surfacing an error to the caller (conjunct 2: the export result with
the rejected record present equals the result without it, so a
per-feature failure can only surface as the fatal "no data" error when
zero features survive).  Malformed/short tuples *inside* list-shaped
coordinates do not reject the feature: the coordinate-list reader
accepts every array (conjunct 3) and silently drops each short tuple
(conjunct 4). -/
theorem per_feature_skip_c7 (geom : List (String × GoVal)) (feat0 : fgbFeature)
    (hbad : geomTypeString geom ∉ (["Point", "MultiPoint", "LineString",
      "MultiLineString", "Polygon", "MultiPolygon"] : List String))
    (docs1 docs2 : List (Option (List (String × GoVal))))
    (doc : Option (List (String × GoVal))) (hrej : docRejected doc)
    (pwaCode layerName : String) :
    parseGeometry geom feat0 =
      .error ("unsupported geometry type: " ++ geomTypeString geom)
    ∧ ExportAsFlatGeobuf (docs1 ++ doc :: docs2) pwaCode layerName =
        ExportAsFlatGeobuf (docs1 ++ docs2) pwaCode layerName
    ∧ (∀ items : List GoVal, ∃ xs, toCoordArray (.varr items) = .ok xs)
    ∧ (∀ (xy : List ℚ) (l : List GoVal), l.length < 2 →
        coordArrayStep xy (.varr l) = xy) := by
  refine ⟨?_, ?_, ?_, ?_⟩
  · have h1 : ¬geomTypeString geom = "Point" := fun h => hbad (by simp [h])
    have h2 : ¬geomTypeString geom = "MultiPoint" := fun h => hbad (by simp [h])
    have h3 : ¬geomTypeString geom = "LineString" := fun h => hbad (by simp [h])
    have h4 : ¬geomTypeString geom = "MultiLineString" :=
      fun h => hbad (by simp [h])
    have h5 : ¬geomTypeString geom = "Polygon" := fun h => hbad (by simp [h])
    have h6 : ¬geomTypeString geom = "MultiPolygon" := fun h => hbad (by simp [h])
    unfold parseGeometry
    dsimp only
    rw [if_neg h1, if_neg h2, if_neg h3, if_neg h4, if_neg h5, if_neg h6]
  · have hstates : exportCollect (docs1 ++ doc :: docs2) =
        exportCollect (docs1 ++ docs2) := by
      unfold exportCollect
      rw [List.foldl_append, List.foldl_append, List.foldl_cons,
        processDoc_rejected doc hrej]
    unfold ExportAsFlatGeobuf
    rw [hstates]
  · intro items
    exact ⟨items.foldl coordArrayStep [], rfl⟩
  · intro xy l hl
    unfold coordArrayStep
    dsimp only
    rw [dif_neg (by omega)]

/-- Witness for C7 (amended): a concrete unsupported type `"Circle"`,
and the rejected record `c4 := some [("geometry", vnull-free bad doc)]`
dropped from a two-record list without changing the export. -/
theorem per_feature_skip_c7_witness :
    (geomTypeString [("type", GoVal.vstr "Circle")] ∉ (["Point", "MultiPoint",
      "LineString", "MultiLineString", "Polygon", "MultiPolygon"] : List String)
      ∧ docRejected (some [("geometry", GoVal.vdoc
          [("type", GoVal.vstr "Circle")])]))
    ∧ parseGeometry [("type", GoVal.vstr "Circle")] mkFeature =
        .error "unsupported geometry type: Circle"
    ∧ ExportAsFlatGeobuf ([] ++ some [("geometry", GoVal.vdoc
          [("type", GoVal.vstr "Circle")])] :: [some c7Doc]) "p" "l" =
        ExportAsFlatGeobuf ([] ++ [some c7Doc]) "p" "l" := by
  have hrej : docRejected (some [("geometry", GoVal.vdoc
      [("type", GoVal.vstr "Circle")])]) :=
    ⟨"unsupported geometry type: Circle", rfl⟩
  have h := per_feature_skip_c7 [("type", GoVal.vstr "Circle")] mkFeature
    (by decide) [] [some c7Doc] _ hrej "p" "l"
  exact ⟨⟨by decide, hrej⟩, h.1, h.2.1⟩
